import Mathlib

/- Shallow embedding of securefs's path-resolution and operation layer
   (src/sources/file_table.h): the FileSystemContext path memo
   (id_cache / id_reverse), the path walker (open_base_dir / open_all),
   and the FUSE-facing operations of namespace securefs::operations.
   C++ exceptions are modelled by an explicit result type carrying the
   (possibly mutated) state; machine strings are lists of characters
   compared bytewise. -/

/-- Strings (std::string) are modelled as lists of characters; std::map's
key order is the lexicographic order on character codes. -/
abbrev Str := List Char

/-- Inode identifiers (id_type: random fixed-width byte strings) are
modelled as naturals; the embedded code only uses equality on them. -/
abbrev NodeId := Nat

/-- FileBase type tags (FileBase::REGULAR_FILE, DIRECTORY, SYMLINK). -/
inductive FType where
  | regular
  | directory
  | symlink
  deriving DecidableEq, Repr

/-- errno values used by the embedded code. -/
def EPERM : Nat := 1
def ENOENT : Nat := 2
def EIOerr : Nat := 5
def EFAULT : Nat := 14
def EEXIST : Nat := 17
def ENOTDIR : Nat := 20
def EISDIR : Nat := 21
def EINVAL : Nat := 22
def EROFS : Nat := 30
def ENOTEMPTY : Nat := 39

/-- Modelled from the spec: the external inode object (the FileBase family
of files.h, which is outside src/). It carries the common metadata
(mode/uid/gid/nlink/times), the regular-file size, the symlink target and
the directory entries, per section 3 of the spec. `unlinkFails` and
`addEntryFails` model a backing-store failure thrown by the corresponding
external operation. -/
structure Inode where
  itype : FType
  mode : Nat
  uid : Nat
  gid : Nat
  nlink : Nat
  atime : Nat
  mtime : Nat
  fsize : Nat
  target : Str
  entries : List (Str × NodeId × FType)
  unlinkFails : Bool
  addEntryFails : Bool
  deriving DecidableEq, Repr

/-- The per-mount FileSystemContext of operations.h/file_table.h: the
inode store (standing for the FileTable plus on-disk objects), the path
memo `id_cache` (a std::map, kept sorted by key), the reverse memo
`id_reverse`, the root id, and the mount flags relevant to the embedded
code. `hostUid`/`hostGid` model OSService::getuid()/getgid(). -/
structure FSState where
  inodes : List (NodeId × Inode)
  idCache : List (Str × NodeId)
  idReverse : List (NodeId × Str)
  rootId : NodeId
  readOnly : Bool
  hostUid : Nat
  hostGid : Nat
  deriving DecidableEq, Repr

/-- Result of running a piece of the C++ code: either a value or a thrown
errno, in both cases together with the state as mutated so far. -/
inductive Res (α : Type) where
  | ok : α → FSState → Res α
  | err : Nat → FSState → Res α
  deriving DecidableEq, Repr

def Res.state {α : Type} : Res α → FSState
  | .ok _ s => s
  | .err _ s => s

def Res.isOk {α : Type} : Res α → Bool
  | .ok _ _ => true
  | .err _ _ => false

def Res.errOf {α : Type} : Res α → Option Nat
  | .ok _ _ => none
  | .err e _ => some e

def Res.okVal {α : Type} : Res α → Option α
  | .ok a _ => some a
  | .err _ _ => none

/-- Sequencing that propagates a thrown exception (with its state). -/
def Res.bind {α β : Type} : Res α → (α → FSState → Res β) → Res β
  | .ok a s, f => f a s
  | .err e s, _ => .err e s

/-- The COMMON_CATCH_BLOCK boundary: convert a result into the int
returned to FUSE (0 on success, minus errno on a thrown exception). -/
def Res.toInt {α : Type} : Res α → (α → FSState → Int × FSState) → Int × FSState
  | .ok a s, f => f a s
  | .err e s, _ => (-(e : Int), s)

@[simp] theorem Res.bind_ok {α β : Type} (a : α) (s : FSState)
    (f : α → FSState → Res β) : Res.bind (.ok a s) f = f a s := rfl

@[simp] theorem Res.bind_err {α β : Type} (e : Nat) (s : FSState)
    (f : α → FSState → Res β) : Res.bind (.err e s) f = .err e s := rfl

@[simp] theorem Res.toInt_ok {α : Type} (a : α) (s : FSState)
    (f : α → FSState → Int × FSState) : Res.toInt (.ok a s) f = f a s := rfl

@[simp] theorem Res.toInt_err {α : Type} (e : Nat) (s : FSState)
    (f : α → FSState → Int × FSState) :
    Res.toInt (.err e s) f = (-(e : Int), s) := rfl

/-- Association-list lookup, the model of map/unordered_map `find`. -/
def afind {κ ν : Type} [DecidableEq κ] (k : κ) : List (κ × ν) → Option ν
  | [] => none
  | (k2, v) :: rest => if k = k2 then some v else afind k rest

/-- Replace the inode stored under `i` (the object mutating its own
persistent state in place). -/
def setInode (i : NodeId) (ino : Inode) (s : FSState) : FSState :=
  { s with inodes := s.inodes.map fun e => if e.1 = i then (i, ino) else e }

/-- Embeds securefs::operations::is_prefix (file_table.h lines 191-199):
walk both strings while they agree; `a` is a prefix of `b` iff `a` is
exhausted first. -/
def prefixOf : Str → Str → Bool
  | [], _ => true
  | _ :: _, [] => false
  | a :: as, b :: bs => a == b && prefixOf as bs

/-- Bytewise character comparison (char_traits ordering). -/
def charLt (a b : Char) : Bool := a.toNat < b.toNat

/-- std::string's operator<: lexicographic comparison. This is the key
order of the std::map `id_cache`. -/
def strLt : Str → Str → Bool
  | [], [] => false
  | [], _ :: _ => true
  | _ :: _, [] => false
  | a :: as, b :: bs => if charLt a b then true else if charLt b a then false else strLt as bs

/-- `id_cache[k] = v`: sorted insertion/assignment into the std::map. -/
def cacheInsert (k : Str) (v : NodeId) : List (Str × NodeId) → List (Str × NodeId)
  | [] => [(k, v)]
  | (k2, v2) :: rest =>
    if strLt k k2 then (k, v) :: (k2, v2) :: rest
    else if k == k2 then (k, v) :: rest
    else (k2, v2) :: cacheInsert k v rest

/-- `id_reverse[i] = p`: assignment into the unordered_map. -/
def revInsert (i : NodeId) (p : Str) (rev : List (NodeId × Str)) : List (NodeId × Str) :=
  (i, p) :: rev.filter fun e => e.1 != i

/-- `id_reverse.erase(v)`. -/
def eraseId (v : NodeId) (rev : List (NodeId × Str)) : List (NodeId × Str) :=
  rev.filter fun e => e.1 != v

/-- The erase loop of FileSystemContext::clear_cache(std::string)
(file_table.h lines 212-217): starting from the iterator positioned at
`path`, erase entries (and their reverse mappings) while the key still
has `path` as a prefix. -/
def eraseRun (p : Str) : List (Str × NodeId) → List (NodeId × Str) →
    List (Str × NodeId) × List (NodeId × Str)
  | [], rev => ([], rev)
  | (k, v) :: rest, rev =>
    if prefixOf p k then eraseRun p rest (eraseId v rev)
    else ((k, v) :: rest, rev)

/-- FileSystemContext::clear_cache(std::string path), file_table.h lines
208-218: `id_cache.find(path)` positions the iterator at the entry whose
key equals `path` (doing nothing when there is none), then entries are
erased while `path` is a prefix of their key. -/
def clearCacheS (p : Str) (s : FSState) : FSState :=
  if s.idCache.any (fun e => e.1 == p) then
    let pre := s.idCache.takeWhile fun e => e.1 != p
    let suf := s.idCache.dropWhile fun e => e.1 != p
    let r := eraseRun p suf s.idReverse
    { s with idCache := pre ++ r.1, idReverse := r.2 }
  else s

/-- FileSystemContext::clear_cache(id_type), file_table.h lines 201-206:
look up `id_reverse[id]` and delegate to the path version. -/
def clearCacheIdS (i : NodeId) (s : FSState) : FSState :=
  match afind i s.idReverse with
  | some p => clearCacheS p s
  | none => s

/-- Modelled from the spec: securefs::split (myutils, outside src/)
splits a path on the separator; empty pieces (from leading, doubled or
trailing separators) yield no component, so "/" splits into nothing.
`acc` holds the characters of the current component in reverse. -/
def splitAux (acc : Str) : Str → List Str
  | [] => if acc.isEmpty then [] else [acc.reverse]
  | c :: rest =>
    if c == '/' then
      if acc.isEmpty then splitAux [] rest
      else acc.reverse :: splitAux [] rest
    else splitAux (c :: acc) rest

def splitPath (p : Str) : List Str := splitAux [] p

/-- The prefix strings built in open_base_dir (file_table.h lines
239-246): prefix += "/" + component, collected for every component. -/
def mkPrefixes (acc : Str) : List Str → List Str
  | [] => []
  | c :: rest => (acc ++ '/' :: c) :: mkPrefixes (acc ++ '/' :: c) rest

/-- Modelled from the spec: Directory::get_entry(name) yields the entry's
(id, type) or reports absence. -/
def getEntry (ino : Inode) (name : Str) : Option (NodeId × FType) :=
  afind name ino.entries

/-- Entry lookup through the state (deref the directory, then its entry);
a convenience for stating theorems. -/
def getEntryState (s : FSState) (d : NodeId) (name : Str) : Option (NodeId × FType) :=
  match afind d s.inodes with
  | none => none
  | some ino => getEntry ino name

/-- FileTable::open_as via the FileGuard (spec section 4.2): return the
live object for `i`, failing with NotFound (ENOENT) when the backing
files are absent. Opening does not mutate the state here; the reference
counting of the table is not observable by the embedded operations. -/
def openAs (i : NodeId) (s : FSState) : Res Inode :=
  match afind i s.inodes with
  | none => .err ENOENT s
  | some ino => .ok ino s

/-- The memo fast-forward loop of open_base_dir (file_table.h lines
261-266): while more than one component remains and the prefix of the
next component is memoized, adopt the memoized id and advance. The list
pairs each component with its prefix string. -/
def ffwd (cache : List (Str × NodeId)) (i : NodeId) :
    List (Str × Str) → NodeId × List (Str × Str)
  | [] => (i, [])
  | [x] => (i, [x])
  | (c, p) :: next :: rest =>
    match afind p cache with
    | some i2 => ffwd cache i2 (next :: rest)
    | none => (i, (c, p) :: next :: rest)

/-- The directory walk of open_base_dir (file_table.h lines 270-280):
for each non-terminal component, cast the current object to a Directory
(WrongType surfaces as EPERM at the outer boundary), look up the entry
(ENOENT when absent, ENOTDIR when not a directory), open the child, and
memoize prefix → id and id → prefix. The last component is returned
unconsumed together with the id of its parent directory. -/
def walkLoop : List (Str × Str) → NodeId → Inode → FSState → Res (NodeId × Str)
  | [], i, _, s => .ok (i, []) s
  | [(c, _)], i, _, s => .ok (i, c) s
  | (c, p) :: next :: rest, _, cur, s =>
    if cur.itype = FType.directory then
      match getEntry cur c with
      | none => .err ENOENT s
      | some (i2, t) =>
        if t = FType.directory then
          match openAs i2 s with
          | .err e s2 => .err e s2
          | .ok child s2 =>
            walkLoop (next :: rest) i2 child
              { s2 with idCache := cacheInsert p i2 s2.idCache,
                        idReverse := revInsert i2 p s2.idReverse }
        else .err ENOTDIR s
    else .err EPERM s

/-- internal::open_base_dir (file_table.h lines 235-283): split the path,
build the prefixes, fast-forward through the memo, open the starting
directory and walk the remaining non-terminal components. Yields the id
of the directory holding the last component, plus that last component
(empty for the root path). Case folding is not modelled: the embedding
covers mounts without kOptionCaseFoldFileName (case_fold.h is outside
src/). -/
def openBaseDir (path : Str) (s : FSState) : Res (NodeId × Str) :=
  let components := splitPath path
  if components.isEmpty then
    match openAs s.rootId s with
    | .err e s2 => .err e s2
    | .ok _ s2 => .ok (s.rootId, []) s2
  else
    let fw := ffwd s.idCache s.rootId (components.zip (mkPrefixes [] components))
    match openAs fw.1 s with
    | .err e s2 => .err e s2
    | .ok ino s2 => walkLoop fw.2 fw.1 ino s2

/-- The throwing internal::open_all (file_table.h lines 285-298): resolve
the base directory, then the last component (ENOENT when absent). -/
def openAll (path : Str) (s : FSState) : Res NodeId :=
  Res.bind (openBaseDir path s) fun dl s2 =>
    if dl.2 = [] then .ok dl.1 s2
    else
      match afind dl.1 s2.inodes with
      | none => .err ENOENT s2
      | some dino =>
        if dino.itype = FType.directory then
          match getEntry dino dl.2 with
          | none => .err ENOENT s2
          | some (i, _) =>
            match openAs i s2 with
            | .err e s3 => .err e s3
            | .ok _ s3 => .ok i s3
        else .err EPERM s2

/-- The bool-returning internal::open_all specialization (file_table.h
lines 300-316): like openAll but reporting a missing last entry as
`none` instead of throwing. -/
def openAllB (path : Str) (s : FSState) : Res (Option NodeId) :=
  Res.bind (openBaseDir path s) fun dl s2 =>
    if dl.2 = [] then .ok (some dl.1) s2
    else
      match afind dl.1 s2.inodes with
      | none => .err ENOENT s2
      | some dino =>
        if dino.itype = FType.directory then
          match getEntry dino dl.2 with
          | none => .ok none s2
          | some (i, _) =>
            match openAs i s2 with
            | .err e s3 => .err e s3
            | .ok _ s3 => .ok (some i) s3
        else .err EPERM s2

/-- Modelled from the spec: FileBase::unlink decrements the link count;
when it reaches zero the object's on-disk files are removed (modelled as
leaving the store immediately). `unlinkFails` models a backing-store
failure thrown by the operation. -/
def unlinkInode (i : NodeId) (s : FSState) : Res Unit :=
  match afind i s.inodes with
  | none => .err ENOENT s
  | some ino =>
    if ino.unlinkFails then .err EIOerr s
    else if ino.nlink ≤ 1 then
      .ok () { s with inodes := s.inodes.filter fun e => e.1 != i }
    else .ok () (setInode i { ino with nlink := ino.nlink - 1 } s)

/-- Modelled from the spec: `get_as<Directory>()->add_entry(name, id,
type)` — cast the inode under `d` to a directory (WrongType → EPERM),
then add the entry, returning false on a name collision. `addEntryFails`
models a backing-store exception thrown by add_entry. -/
def addEntryR (d : NodeId) (name : Str) (i : NodeId) (t : FType) (s : FSState) : Res Bool :=
  match afind d s.inodes with
  | none => .err ENOENT s
  | some dino =>
    if dino.itype = FType.directory then
      if dino.addEntryFails then .err EIOerr s
      else if (getEntry dino name).isSome then .ok false s
      else .ok true (setInode d { dino with entries := dino.entries ++ [(name, i, t)] } s)
    else .err EPERM s

/-- Modelled from the spec: Directory::remove_entry(name, id, type)
removes the named entry from the directory under `d`. -/
def removeEntryS (d : NodeId) (name : Str) (s : FSState) : FSState :=
  match afind d s.inodes with
  | none => s
  | some dino =>
    setInode d { dino with entries := dino.entries.filter fun e => e.1 != name } s

/-- A freshly initialized inode (create_as + initialize_empty). Fresh
objects are modelled with well-behaved backing files (`unlinkFails` and
`addEntryFails` false). -/
def initInode (t : FType) (mode uid gid : Nat) : Inode :=
  { itype := t, mode := mode, uid := uid, gid := gid, nlink := 1,
    atime := 0, mtime := 0, fsize := 0, target := [], entries := [],
    unlinkFails := false, addEntryFails := false }

/-- internal::create (file_table.h lines 318-345): walk the base dir,
create a fresh inode under the (random, hence fresh) id `newId`
(create_as fails with Exists when the id is already taken), then try to
add the directory entry: a collision throws EEXIST, and any exception
from the add-entry step unlinks the just-created inode before being
rethrown. A failure of that unlink would terminate the process in C++;
it is unreachable here because fresh inodes never fail to unlink. -/
def createInternal (path : Str) (t : FType) (mode uid gid : Nat) (newId : NodeId)
    (s : FSState) : Res NodeId :=
  Res.bind (openBaseDir path s) fun dl s1 =>
    if (afind newId s1.inodes).isSome then .err EEXIST s1
    else
      let s2 := { s1 with inodes := s1.inodes ++ [(newId, initInode t mode uid gid)] }
      match addEntryR dl.1 dl.2 newId t s2 with
      | .ok true s3 => .ok newId s3
      | .ok false s3 => .err EEXIST (unlinkInode newId s3).state
      | .err e s3 => .err e (unlinkInode newId s3).state

/-- internal::remove(fs, id, type) (file_table.h lines 347-360): open the
inode, unlink it and invalidate the memo for its id; every error is
swallowed, so this always completes and only the state is returned. -/
def removeById (i : NodeId) (s : FSState) : FSState :=
  match openAs i s with
  | .err _ s1 => s1
  | .ok _ s1 =>
    match unlinkInode i s1 with
    | .err _ s2 => s2
    | .ok _ s2 => clearCacheIdS i s2

/-- internal::remove(fs, path) (file_table.h lines 362-392): walk the
base dir, require a non-empty last component (EPERM), read the entry
(ENOENT when absent), open the target, reject a non-empty directory
(ENOTEMPTY), then remove the directory entry and finally unlink the
inode — an error from that last unlink propagates. -/
def removePath (path : Str) (s : FSState) : Res Unit :=
  Res.bind (openBaseDir path s) fun dl s1 =>
    match afind dl.1 s1.inodes with
    | none => .err ENOENT s1
    | some dino =>
      if dino.itype = FType.directory then
        if dl.2 = [] then .err EPERM s1
        else
          match getEntry dino dl.2 with
          | none => .err ENOENT s1
          | some (i, _) =>
            match openAs i s1 with
            | .err e s2 => .err e s2
            | .ok ino s2 =>
              if ino.itype = FType.directory ∧ ino.entries ≠ [] then .err ENOTEMPTY s2
              else Res.bind (.ok () (removeEntryS dl.1 dl.2 s2)) fun _ s3 =>
                unlinkInode i s3
      else .err EPERM s1

/-- The stat buffer filled by getattr. -/
structure StatBuf where
  st_mode : Nat
  st_uid : Nat
  st_gid : Nat
  st_nlink : Nat
  st_size : Nat
  deriving DecidableEq, Repr

/-- Modelled from the spec: FileBase::stat fills the buffer from the
inode's stored metadata. -/
def inodeStat (ino : Inode) : StatBuf :=
  { st_mode := ino.mode, st_uid := ino.uid, st_gid := ino.gid,
    st_nlink := ino.nlink, st_size := ino.fsize }

/-- operations::getattr (file_table.h lines 439-457): resolve via the
bool open_all (a missing entry returns -ENOENT), fill the stat from the
inode, then overwrite st_uid/st_gid with the host process's
OSService::getuid()/getgid(). -/
def opGetattr (path : Str) (s : FSState) : Res StatBuf :=
  Res.bind (openAllB path s) fun oi s2 =>
    match oi with
    | none => .err ENOENT s2
    | some i =>
      match afind i s2.inodes with
      | none => .err ENOENT s2
      | some ino =>
        .ok { inodeStat ino with st_uid := s2.hostUid, st_gid := s2.hostGid } s2

/-- S_IFMT and the file type bits used by the operations. -/
def S_IFMT : Nat := 61440
def S_IFREG : Nat := 32768
def S_IFDIR : Nat := 16384
def S_IFLNK : Nat := 40960

/-- operations::create (file_table.h lines 513-530): force the mode's
type bits to S_IFREG (within the 32-bit fuse_mode_t), reject read-only
mounts with EROFS, then run internal::create for a regular file. The
fresh random id is passed in as `newId`. -/
def opCreate (path : Str) (mode uid gid : Nat) (newId : NodeId) (s : FSState) :
    Int × FSState :=
  let mode2 := (mode &&& (4294967295 - S_IFMT)) ||| S_IFREG
  if s.readOnly then (-(EROFS : Int), s)
  else
    Res.toInt (createInternal path FType.regular mode2 uid gid newId s)
      fun _ s2 => (0, s2)

/-- operations::mkdir (file_table.h lines 667-682): like create but with
S_IFDIR and a Directory inode. -/
def opMkdir (path : Str) (mode uid gid : Nat) (newId : NodeId) (s : FSState) :
    Int × FSState :=
  let mode2 := (mode &&& (4294967295 - S_IFMT)) ||| S_IFDIR
  if s.readOnly then (-(EROFS : Int), s)
  else
    Res.toInt (createInternal path FType.directory mode2 uid gid newId s)
      fun _ s2 => (0, s2)

/-- operations::unlink (file_table.h lines 653-665): EROFS on read-only
mounts, otherwise internal::remove(fs, path). -/
def opUnlink (path : Str) (s : FSState) : Int × FSState :=
  if s.readOnly then (-(EROFS : Int), s)
  else Res.toInt (removePath path s) fun _ s2 => (0, s2)

/-- operations::rmdir (file_table.h line 684) forwards to unlink. -/
def opRmdir (path : Str) (s : FSState) : Int × FSState := opUnlink path s

/-- operations::chmod (file_table.h lines 686-701): open the target, keep
only the low permission bits of the argument, put back the original type
bits (original_mode & S_IFMT), store and flush. No read-only check. -/
def opChmod (path : Str) (mode : Nat) (s : FSState) : Int × FSState :=
  Res.toInt (openAll path s) fun i s2 =>
    match afind i s2.inodes with
    | none => (-(ENOENT : Int), s2)
    | some ino =>
      let m := (mode &&& 511) ||| (ino.mode &&& S_IFMT)
      (0, setInode i { ino with mode := m } s2)

/-- operations::chown (file_table.h lines 703-716): open the target, set
uid and gid, flush. No read-only check. -/
def opChown (path : Str) (uid gid : Nat) (s : FSState) : Int × FSState :=
  Res.toInt (openAll path s) fun i s2 =>
    match afind i s2.inodes with
    | none => (-(ENOENT : Int), s2)
    | some ino => (0, setInode i { ino with uid := uid, gid := gid } s2)

/-- operations::truncate (file_table.h lines 623-635): open the target,
cast to RegularFile (WrongType → EPERM), truncate to `size`, flush. No
read-only check. -/
def opTruncate (path : Str) (size : Nat) (s : FSState) : Int × FSState :=
  Res.toInt (openAll path s) fun i s2 =>
    match afind i s2.inodes with
    | none => (-(ENOENT : Int), s2)
    | some ino =>
      if ino.itype = FType.regular then (0, setInode i { ino with fsize := size } s2)
      else (-(EPERM : Int), s2)

/-- operations::utimens (file_table.h lines 855-866): open the target and
set the timestamps. No read-only check. -/
def opUtimens (path : Str) (anew mnew : Nat) (s : FSState) : Int × FSState :=
  Res.toInt (openAll path s) fun i s2 =>
    match afind i s2.inodes with
    | none => (-(ENOENT : Int), s2)
    | some ino => (0, setInode i { ino with atime := anew, mtime := mnew } s2)

/-- operations::symlink (file_table.h lines 718-734): EROFS on read-only
mounts, else internal::create with type SYMLINK and mode S_IFLNK | 0755,
then get_as<Symlink>()->set(to) stores the target. -/
def opSymlink (target : Str) (fromPath : Str) (uid gid : Nat) (newId : NodeId)
    (s : FSState) : Int × FSState :=
  if s.readOnly then (-(EROFS : Int), s)
  else
    Res.toInt (createInternal fromPath FType.symlink (S_IFLNK ||| 493) uid gid newId s)
      fun i s2 =>
        match afind i s2.inodes with
        | none => (-(ENOENT : Int), s2)
        | some ino =>
          if ino.itype = FType.symlink then (0, setInode i { ino with target := target } s2)
          else (-(EPERM : Int), s2)

/-- operations::readlink (file_table.h lines 736-751): a zero-sized
buffer is EINVAL; otherwise open the target, cast to Symlink, zero the
buffer (`memset(buf, 0, size)`) and copy min(target length, size - 1)
bytes of the link destination into it. The returned list is the buffer's
final contents (length `size`). -/
def opReadlink (path : Str) (size : Nat) (s : FSState) : Res (List Char) :=
  if size = 0 then .err EINVAL s
  else
    Res.bind (openAll path s) fun i s2 =>
      match afind i s2.inodes with
      | none => .err ENOENT s2
      | some ino =>
        if ino.itype = FType.symlink then
          let n := min ino.target.length (size - 1)
          .ok (ino.target.take n ++ List.replicate (size - n) (Char.ofNat 0)) s2
        else .err EPERM s2

/-- operations::rename (file_table.h lines 753-795): walk both base
dirs, look up the source entry (-ENOENT when absent) and the destination
entry; with an existing destination: same id → success with no change,
non-directory onto directory → -EISDIR, differing types → -EINVAL,
otherwise drop the destination entry. Then move the entry, unlink a
displaced destination inode with errors swallowed, and invalidate the
memo — passing only the final path component `src_filename` to
clear_cache. -/
def opRename (src dst : Str) (s : FSState) : Int × FSState :=
  Res.toInt (openBaseDir src s) fun sl s1 =>
  Res.toInt (openBaseDir dst s1) fun dl s2 =>
    match afind sl.1 s2.inodes, afind dl.1 s2.inodes with
    | some srcDir, some dstDir =>
      if srcDir.itype = FType.directory then
        if dstDir.itype = FType.directory then
          match getEntry srcDir sl.2 with
          | none => (-(ENOENT : Int), s2)
          | some (srcId, srcT) =>
            match getEntry dstDir dl.2 with
            | some (dstId, dstT) =>
              if srcId = dstId then (0, s2)
              else if srcT ≠ FType.directory ∧ dstT = FType.directory then
                (-(EISDIR : Int), s2)
              else if srcT ≠ dstT then (-(EINVAL : Int), s2)
              else
                let s3 := removeEntryS dl.1 dl.2 s2
                let s4 := removeEntryS sl.1 sl.2 s3
                Res.toInt (addEntryR dl.1 dl.2 srcId srcT s4) fun _ s5 =>
                  (0, clearCacheS sl.2 (removeById dstId s5))
            | none =>
              let s4 := removeEntryS sl.1 sl.2 s2
              Res.toInt (addEntryR dl.1 dl.2 srcId srcT s4) fun _ s5 =>
                (0, clearCacheS sl.2 s5)
        else (-(EPERM : Int), s2)
      else (-(EPERM : Int), s2)
    | _, _ => (-(EPERM : Int), s2)

/-- operations::link (file_table.h lines 797-832): walk both base dirs,
-ENOENT for a missing source entry, -EEXIST for an existing destination
entry, open the source inode, -EPERM unless it is a regular file, bump
its link count and add the destination entry. No read-only check. -/
def opLink (src dst : Str) (s : FSState) : Int × FSState :=
  Res.toInt (openBaseDir src s) fun sl s1 =>
  Res.toInt (openBaseDir dst s1) fun dl s2 =>
    match afind sl.1 s2.inodes, afind dl.1 s2.inodes with
    | some srcDir, some dstDir =>
      if srcDir.itype = FType.directory then
        if dstDir.itype = FType.directory then
          match getEntry srcDir sl.2 with
          | none => (-(ENOENT : Int), s2)
          | some (srcId, srcT) =>
            if (getEntry dstDir dl.2).isSome then (-(EEXIST : Int), s2)
            else
              Res.toInt (openAs srcId s2) fun ino s3 =>
                if ino.itype = FType.regular then
                  let s4 := setInode srcId { ino with nlink := ino.nlink + 1 } s3
                  Res.toInt (addEntryR dl.1 dl.2 srcId srcT s4) fun _ s5 => (0, s5)
                else (-(EPERM : Int), s3)
        else (-(EPERM : Int), s2)
      else (-(EPERM : Int), s2)
    | _, _ => (-(EPERM : Int), s2)

/-- operations::readdir (file_table.h lines 480-511): a null file handle
is -EFAULT; a non-directory handle is -ENOTDIR; otherwise the entries
are streamed to the filler and 0 is returned. The raw object pointer
stored in `info->fh` is modelled as an optional inode id. -/
def opReaddir (fh : Option NodeId) (s : FSState) : Int × FSState :=
  match fh with
  | none => (-(EFAULT : Int), s)
  | some i =>
    match afind i s.inodes with
    | none => (-(EPERM : Int), s)
    | some ino =>
      if ino.itype = FType.directory then (0, s) else (-(ENOTDIR : Int), s)

/-- operations::read (file_table.h lines 575-588): -EFAULT for a null
handle, cast to RegularFile, return the number of bytes read. -/
def opRead (fh : Option NodeId) (off len : Nat) (s : FSState) : Int × FSState :=
  match fh with
  | none => (-(EFAULT : Int), s)
  | some i =>
    match afind i s.inodes with
    | none => (-(EPERM : Int), s)
    | some ino =>
      if ino.itype = FType.regular then ((min len (ino.fsize - off) : Nat), s)
      else (-(EPERM : Int), s)

/-- operations::write (file_table.h lines 590-606): -EFAULT for a null
handle, cast to RegularFile, write and return `len`. -/
def opWrite (fh : Option NodeId) (off len : Nat) (s : FSState) : Int × FSState :=
  match fh with
  | none => (-(EFAULT : Int), s)
  | some i =>
    match afind i s.inodes with
    | none => (-(EPERM : Int), s)
    | some ino =>
      if ino.itype = FType.regular then
        ((len : Nat), setInode i { ino with fsize := max ino.fsize (off + len) } s)
      else (-(EPERM : Int), s)

/-- operations::flush (file_table.h lines 608-621): -EFAULT for a null
handle, cast to RegularFile, flush. -/
def opFlush (fh : Option NodeId) (s : FSState) : Int × FSState :=
  match fh with
  | none => (-(EFAULT : Int), s)
  | some i =>
    match afind i s.inodes with
    | none => (-(EPERM : Int), s)
    | some ino => if ino.itype = FType.regular then (0, s) else (-(EPERM : Int), s)

/-- operations::ftruncate (file_table.h lines 637-651): -EFAULT for a
null handle, cast to RegularFile, truncate and flush. -/
def opFtruncate (fh : Option NodeId) (size : Nat) (s : FSState) : Int × FSState :=
  match fh with
  | none => (-(EFAULT : Int), s)
  | some i =>
    match afind i s.inodes with
    | none => (-(EPERM : Int), s)
    | some ino =>
      if ino.itype = FType.regular then (0, setInode i { ino with fsize := size } s)
      else (-(EPERM : Int), s)

/-- operations::fsync (file_table.h lines 834-848): -EFAULT for a null
handle, then flush and fsync on the FileBase (no cast). -/
def opFsync (fh : Option NodeId) (s : FSState) : Int × FSState :=
  match fh with
  | none => (-(EFAULT : Int), s)
  | some i =>
    match afind i s.inodes with
    | none => (-(EPERM : Int), s)
    | some _ => (0, s)

/-- operations::release (file_table.h lines 558-573): a null handle
returns -EINVAL (unlike the -EFAULT of its sibling handle readers), then
the object is flushed and handed back to the table. -/
def opRelease (fh : Option NodeId) (s : FSState) : Int × FSState :=
  match fh with
  | none => (-(EINVAL : Int), s)
  | some i =>
    match afind i s.inodes with
    | none => (-(EPERM : Int), s)
    | some _ => (0, s)

/-- A directory inode with the given entries (mode 0755 | S_IFDIR). -/
def dirIno (es : List (Str × NodeId × FType)) : Inode :=
  { itype := .directory, mode := 16877, uid := 0, gid := 0, nlink := 1,
    atime := 0, mtime := 0, fsize := 0, target := [], entries := es,
    unlinkFails := false, addEntryFails := false }

/-- A regular-file inode with the given mode and unlink behavior. -/
def fileIno (mode : Nat) (ufails : Bool) : Inode :=
  { itype := .regular, mode := mode, uid := 42, gid := 43, nlink := 1,
    atime := 0, mtime := 0, fsize := 0, target := [], entries := [],
    unlinkFails := ufails, addEntryFails := false }

/-- The concrete mount used by several concrete runs: the tree
/a/b/f with ids root=0, a=1, b=2, f=3, an empty memo, and the file's
mode and failure behavior as parameters. -/
def demoTree (fmode : Nat) (ufails ro : Bool) : FSState :=
  { inodes := [(0, dirIno [("a".data, 1, .directory)]),
               (1, dirIno [("b".data, 2, .directory)]),
               (2, dirIno [("f".data, 3, .regular)]),
               (3, fileIno fmode ufails)],
    idCache := [], idReverse := [], rootId := 0, readOnly := ro,
    hostUid := 7, hostGid := 8 }

/-- The demo tree mounted read-only. -/
def c1State : FSState := demoTree 33188 false true

/-- C1: the claim says every mutating operation on a read-only mount
returns ReadOnlyFilesystem (-EROFS) and leaves the state unchanged. The
code only guards create, mkdir, unlink, rmdir and symlink: on a
read-only mount, chmod succeeds (and really changes the stored mode),
and chown, truncate, utimens, rename and link all return 0 instead of
-EROFS, while the guarded five do return -EROFS. -/
theorem readonly_mutations_not_rejected :
    c1State.readOnly = true ∧
    (opChmod "/a/b/f".data 493 c1State).1 = 0 ∧
    ((afind 3 (opChmod "/a/b/f".data 493 c1State).2.inodes).map Inode.mode = some 33261) ∧
    (opChown "/a/b/f".data 5 6 c1State).1 = 0 ∧
    (opTruncate "/a/b/f".data 9 c1State).1 = 0 ∧
    (opUtimens "/a/b/f".data 1 2 c1State).1 = 0 ∧
    (opRename "/a/b".data "/a/c".data c1State).1 = 0 ∧
    (opLink "/a/b/f".data "/a/b/g".data c1State).1 = 0 ∧
    (opUnlink "/a/b/f".data c1State).1 = -30 ∧
    (opCreate "/x".data 420 0 0 9 c1State).1 = -30 ∧
    (opMkdir "/x".data 493 0 0 9 c1State).1 = -30 ∧
    (opRmdir "/a/b".data c1State).1 = -30 ∧
    (opSymlink "t".data "/x".data 0 0 9 c1State).1 = -30 := by decide

/-- The demo tree mounted read-write. -/
def c3Base : FSState := demoTree 33188 false false

/-- C3: the claim says a successful rename evicts every memo entry having
the source path as a prefix. Concretely: getattr("/a/b/f") memoizes
"/a/b" → 2; rename("/a/b", "/a/c") then succeeds but passes only the
last component "b" to clear_cache, which is never a cache key, so the
stale entry "/a/b" → 2 survives the rename. -/
theorem rename_leaves_stale_source_memo :
    (opGetattr "/a/b/f".data c3Base).isOk = true ∧
    ("/a/b".data, 2) ∈ (opGetattr "/a/b/f".data c3Base).state.idCache ∧
    (opRename "/a/b".data "/a/c".data (opGetattr "/a/b/f".data c3Base).state).1 = 0 ∧
    ("/a/b".data, 2) ∈
      (opRename "/a/b".data "/a/c".data (opGetattr "/a/b/f".data c3Base).state).2.idCache := by
  decide

/-- A cache state where "/a" is not a key but its descendant "/a/b" is. -/
def c2State : FSState :=
  { inodes := [], idCache := [("/a/b".data, 7)], idReverse := [(7, "/a/b".data)],
    rootId := 0, readOnly := false, hostUid := 0, hostGid := 0 }

/-- C2 counterexample: the claim says clear_cache(p) removes every entry
whose key has p as a prefix even when p itself is not a key. With the
cache holding only "/a/b" → 7, clear_cache("/a") removes nothing —
id_cache.find("/a") is already end() — although "/a" is a prefix of
"/a/b". -/
theorem clear_cache_uncached_prefix_counterexample :
    prefixOf "/a".data "/a/b".data = true ∧
    ("/a/b".data, 7) ∈ (clearCacheS "/a".data c2State).idCache ∧
    (7, "/a/b".data) ∈ (clearCacheS "/a".data c2State).idReverse := by decide

/-- C8 counterexample: the claim says release fails with BadHandle
(-EFAULT) on a null kernel handle; the code returns -EINVAL there. -/
theorem release_null_handle_einval :
    (opRelease none c3Base).1 = -22 ∧ (opRelease none c3Base).1 ≠ -14 := by decide

/-- C8 amended: readdir, read, write, flush, ftruncate and fsync return
-EFAULT on a null kernel handle; release instead returns -EINVAL, and
none of them touches the state. -/
theorem null_handle_errors (s : FSState) (off len size : Nat) :
    opReaddir none s = (-14, s) ∧
    opRead none off len s = (-14, s) ∧
    opWrite none off len s = (-14, s) ∧
    opFlush none s = (-14, s) ∧
    opFtruncate none size s = (-14, s) ∧
    opFsync none s = (-14, s) ∧
    opRelease none s = (-22, s) :=
  ⟨rfl, rfl, rfl, rfl, rfl, rfl, rfl⟩

/-- The demo tree whose file /a/b/f fails its backing-store unlink. -/
def c5State : FSState := demoTree 33188 true false

/-- C5 counterexample: the claim says an error raised while unlinking the
inode after the directory entry was removed is swallowed and remove
still returns success. With /a/b/f whose inode unlink throws EIO,
unlink("/a/b/f") removes the entry but returns -5, not 0. -/
theorem remove_unlink_error_not_swallowed :
    (opUnlink "/a/b/f".data c5State).1 = -5 ∧
    (opUnlink "/a/b/f".data c5State).1 ≠ 0 ∧
    getEntryState (opUnlink "/a/b/f".data c5State).2 2 "f".data = none := by decide

/-- The demo tree whose file /a/b/f carries setuid bit: mode 0104755. -/
def c10State : FSState := demoTree 35309 false false

/-- C10 counterexample: the claim says chmod changes only the low
permission bits (mode & 0777) of the stored mode. chmod("/a/b/f", 0644)
on a file with stored mode 0104755 produces 0100644: the setuid bit
(0o4000, bit 11) was set before and cleared after, yet bit 11 lies
neither in 0777 nor in S_IFMT. -/
theorem chmod_clears_setuid_counterexample :
    (opChmod "/a/b/f".data 420 c10State).1 = 0 ∧
    (afind 3 (opChmod "/a/b/f".data 420 c10State).2.inodes).map Inode.mode = some 33188 ∧
    Nat.testBit 35309 11 = true ∧
    Nat.testBit 33188 11 = false ∧
    Nat.testBit 511 11 = false ∧
    Nat.testBit S_IFMT 11 = false := by decide

/- Association-list and state-update lemmas used across the proofs. -/

theorem afind_append {κ ν : Type} [DecidableEq κ] (k : κ) (l1 l2 : List (κ × ν)) :
    afind k (l1 ++ l2) =
      match afind k l1 with
      | some v => some v
      | none => afind k l2 := by
  induction l1 with
  | nil => simp [afind]
  | cons hd tl ih =>
    obtain ⟨k2, v2⟩ := hd
    by_cases h : k = k2 <;> simp [afind, h, ih]

theorem afind_none_iff {κ ν : Type} [DecidableEq κ] (k : κ) (l : List (κ × ν)) :
    afind k l = none ↔ ∀ e ∈ l, e.1 ≠ k := by
  induction l with
  | nil => simp [afind]
  | cons hd tl ih =>
    obtain ⟨k2, v2⟩ := hd
    by_cases h : k = k2
    · subst h; simp [afind]
    · simp only [afind, if_neg h, List.mem_cons, ih]
      constructor
      · intro hx e he
        rcases he with he | he
        · subst he; exact fun hk => h hk.symm
        · exact hx e he
      · intro hx e he; exact hx e (Or.inr he)

theorem mapset_head_eq (i : NodeId) (ino : Inode) (v : Inode) :
    (if (i, v).1 = i then (i, ino) else (i, v)) = (i, ino) := if_pos rfl

theorem mapset_head_ne (k i : NodeId) (ino : Inode) (v : Inode) (h : k ≠ i) :
    (if (k, v).1 = i then (i, ino) else (k, v)) = (k, v) := if_neg h

theorem afind_update_self (i : NodeId) (ino : Inode) (l : List (NodeId × Inode))
    (h : (afind i l).isSome = true) :
    afind i (l.map fun e => if e.1 = i then (i, ino) else e) = some ino := by
  induction l with
  | nil => simp [afind] at h
  | cons hd tl ih =>
    obtain ⟨k2, v2⟩ := hd
    by_cases hk : k2 = i
    · subst hk
      rw [List.map_cons, mapset_head_eq]
      simp [afind]
    · rw [List.map_cons, mapset_head_ne k2 i ino v2 hk]
      have hik : i ≠ k2 := fun hx => hk hx.symm
      simp only [afind, if_neg hik] at h ⊢
      exact ih h

theorem afind_update_other (j i : NodeId) (ino : Inode) (l : List (NodeId × Inode))
    (h : j ≠ i) :
    afind j (l.map fun e => if e.1 = i then (i, ino) else e) = afind j l := by
  induction l with
  | nil => simp
  | cons hd tl ih =>
    obtain ⟨k2, v2⟩ := hd
    by_cases hk : k2 = i
    · subst hk
      rw [List.map_cons, mapset_head_eq]
      simp only [afind, if_neg h]
      exact ih
    · rw [List.map_cons, mapset_head_ne k2 i ino v2 hk]
      by_cases hj : j = k2
      · subst hj; simp [afind]
      · simp only [afind, if_neg hj]
        exact ih

theorem afind_setInode_self (i : NodeId) (ino : Inode) (s : FSState)
    (h : (afind i s.inodes).isSome = true) :
    afind i (setInode i ino s).inodes = some ino :=
  afind_update_self i ino s.inodes h

theorem afind_setInode_other (j i : NodeId) (ino : Inode) (s : FSState) (h : j ≠ i) :
    afind j (setInode i ino s).inodes = afind j s.inodes :=
  afind_update_other j i ino s.inodes h

theorem afind_filter_other {κ ν : Type} [DecidableEq κ] [BEq κ] [LawfulBEq κ]
    (k i : κ) (l : List (κ × ν)) (h : k ≠ i) :
    afind k (l.filter fun e => e.1 != i) = afind k l := by
  induction l with
  | nil => simp [afind]
  | cons hd tl ih =>
    obtain ⟨k2, v2⟩ := hd
    by_cases h2 : k2 = i
    · subst h2
      have hb : ((k2, v2).1 != k2) = false := by simp
      rw [List.filter_cons, hb]
      simp only [afind, if_neg h]
      exact ih
    · have hb : ((k2, v2).1 != i) = true := by simpa using h2
      rw [List.filter_cons, hb]
      by_cases hj : k = k2
      · subst hj; simp [afind]
      · simp only [afind, if_neg hj]
        exact ih

theorem afind_filter_self {κ ν : Type} [DecidableEq κ] [BEq κ] [LawfulBEq κ]
    (k : κ) (l : List (κ × ν)) :
    afind k (l.filter fun e => e.1 != k) = none := by
  induction l with
  | nil => simp [afind]
  | cons hd tl ih =>
    obtain ⟨k2, v2⟩ := hd
    by_cases h2 : k2 = k
    · subst h2
      have hb : ((k2, v2).1 != k2) = false := by simp
      rw [List.filter_cons, hb]
      exact ih
    · have hb : ((k2, v2).1 != k) = true := by simpa using h2
      rw [List.filter_cons, hb]
      have hj : k ≠ k2 := fun hx => h2 hx.symm
      simp only [afind, if_neg hj]
      exact ih

theorem filter_eq_self_of_afind_none {κ ν : Type} [DecidableEq κ] [BEq κ] [LawfulBEq κ]
    (k : κ) (l : List (κ × ν)) (h : afind k l = none) :
    l.filter (fun e => e.1 != k) = l := by
  induction l with
  | nil => simp
  | cons hd tl ih =>
    obtain ⟨k2, v2⟩ := hd
    have h2 := (afind_none_iff k ((k2, v2) :: tl)).1 h
    have hk2 : k2 ≠ k := h2 (k2, v2) (by simp)
    have htl : afind k tl = none := by
      rw [afind_none_iff]
      intro e he; exact h2 e (by simp [he])
    have hb : ((k2, v2).1 != k) = true := by simpa using hk2
    rw [List.filter_cons, hb, ih htl]
    simp

/- The walk writes only the two memo maps; every other field of the
state is preserved. -/

def memoOnly (a b : FSState) : Prop :=
  a.inodes = b.inodes ∧ a.rootId = b.rootId ∧ a.readOnly = b.readOnly ∧
  a.hostUid = b.hostUid ∧ a.hostGid = b.hostGid

theorem memoOnly_refl (s : FSState) : memoOnly s s :=
  ⟨rfl, rfl, rfl, rfl, rfl⟩

theorem memoOnly_trans {a b c : FSState} (h1 : memoOnly a b) (h2 : memoOnly b c) :
    memoOnly a c :=
  ⟨h1.1.trans h2.1, h1.2.1.trans h2.2.1, h1.2.2.1.trans h2.2.2.1,
   h1.2.2.2.1.trans h2.2.2.2.1, h1.2.2.2.2.trans h2.2.2.2.2⟩

theorem openAs_state (i : NodeId) (s : FSState) : (openAs i s).state = s := by
  unfold openAs
  cases afind i s.inodes <;> rfl

theorem openAs_err_state {i : NodeId} {s : FSState} {e : Nat} {s2 : FSState}
    (h : openAs i s = .err e s2) : s2 = s := by
  have hx := openAs_state i s
  rw [h] at hx
  exact hx

theorem openAs_ok_state {i : NodeId} {s : FSState} {v : Inode} {s2 : FSState}
    (h : openAs i s = .ok v s2) : s2 = s := by
  have hx := openAs_state i s
  rw [h] at hx
  exact hx

theorem walkLoop_memoOnly :
    ∀ (l : List (Str × Str)) (i : NodeId) (cur : Inode) (s : FSState),
      memoOnly (walkLoop l i cur s).state s := by
  intro l
  induction l with
  | nil => intro i cur s; exact memoOnly_refl _
  | cons hd tl ih =>
    intro i cur s
    obtain ⟨c, p⟩ := hd
    cases tl with
    | nil => exact memoOnly_refl _
    | cons hd2 tl2 =>
      unfold walkLoop
      split
      · split
        · exact memoOnly_refl _
        · split
          · split
            · rename_i e2 s2 heq
              have h3 := openAs_err_state heq
              subst h3
              exact memoOnly_refl _
            · rename_i child s2 heq
              have h3 := openAs_ok_state heq
              subst h3
              exact memoOnly_trans (ih _ _ _) ⟨rfl, rfl, rfl, rfl, rfl⟩
          · exact memoOnly_refl _
      · exact memoOnly_refl _

theorem openBaseDir_memoOnly (p : Str) (s : FSState) :
    memoOnly (openBaseDir p s).state s := by
  simp only [openBaseDir]
  split
  · split
    · rename_i e2 s2 heq
      have h3 := openAs_err_state heq
      subst h3
      exact memoOnly_refl _
    · rename_i v s2 heq
      have h3 := openAs_ok_state heq
      subst h3
      exact memoOnly_refl _
  · split
    · rename_i e2 s2 heq
      have h3 := openAs_err_state heq
      subst h3
      exact memoOnly_refl _
    · rename_i ino s2 heq
      have h3 := openAs_ok_state heq
      subst h3
      exact walkLoop_memoOnly _ _ _ _

theorem openAll_memoOnly (p : Str) (s : FSState) :
    memoOnly (openAll p s).state s := by
  have hb := openBaseDir_memoOnly p s
  unfold openAll
  cases hob : openBaseDir p s with
  | err e s2 =>
    rw [hob] at hb
    simpa using hb
  | ok dl s2 =>
    rw [hob] at hb
    simp only [Res.bind_ok]
    split
    · exact hb
    · split
      · exact hb
      · split
        · split
          · exact hb
          · split
            · rename_i e2 s3 heq
              have h3 := openAs_err_state heq
              subst h3
              exact hb
            · rename_i v s3 heq
              have h3 := openAs_ok_state heq
              subst h3
              exact hb
        · exact hb

theorem openAllB_memoOnly (p : Str) (s : FSState) :
    memoOnly (openAllB p s).state s := by
  have hb := openBaseDir_memoOnly p s
  unfold openAllB
  cases hob : openBaseDir p s with
  | err e s2 =>
    rw [hob] at hb
    simpa using hb
  | ok dl s2 =>
    rw [hob] at hb
    simp only [Res.bind_ok]
    split
    · exact hb
    · split
      · exact hb
      · split
        · split
          · exact hb
          · split
            · rename_i e2 s3 heq
              have h3 := openAs_err_state heq
              subst h3
              exact hb
            · rename_i v s3 heq
              have h3 := openAs_ok_state heq
              subst h3
              exact hb
        · exact hb

/-- C9: every successful getattr reports the host process's uid and gid
(OSService::getuid()/getgid(), modelled as hostUid/hostGid of the mount)
in the returned stat, regardless of the owner and group stored in the
inode's metadata. -/
theorem getattr_reports_host_owner (p : Str) (s : FSState) (st : StatBuf) (s2 : FSState)
    (h : opGetattr p s = .ok st s2) :
    st.st_uid = s.hostUid ∧ st.st_gid = s.hostGid := by
  have hb := openAllB_memoOnly p s
  unfold opGetattr at h
  cases hob : openAllB p s with
  | err e s3 =>
    rw [hob] at h
    simp [Res.bind] at h
  | ok oi s3 =>
    rw [hob] at hb
    have hhu : s3.hostUid = s.hostUid := hb.2.2.2.1
    have hhg : s3.hostGid = s.hostGid := hb.2.2.2.2
    rw [hob] at h
    simp only [Res.bind_ok] at h
    split at h
    · exact Res.noConfusion h
    · split at h
      · exact Res.noConfusion h
      · simp only [Res.ok.injEq] at h
        obtain ⟨hst, hs⟩ := h
        subst hst
        exact ⟨hhu, hhg⟩

/-- The stat produced by getattr("/a/b/f") on the demo tree: the host's
uid 7 and gid 8, although the inode stores uid 42 and gid 43. -/
def c9Stat : StatBuf :=
  { st_mode := 33188, st_uid := 7, st_gid := 8, st_nlink := 1, st_size := 0 }

/-- Witness for C9 at a concrete mount: the file stores uid 42 / gid 43
but the returned stat carries the host's 7 / 8. -/
theorem getattr_reports_host_owner_witness :
    c9Stat.st_uid = c3Base.hostUid ∧ c9Stat.st_gid = c3Base.hostGid ∧
    (afind 3 c3Base.inodes).map Inode.uid = some 42 ∧
    (afind 3 c3Base.inodes).map Inode.gid = some 43 :=
  ⟨(getattr_reports_host_owner "/a/b/f".data c3Base c9Stat
      (opGetattr "/a/b/f".data c3Base).state (by decide)).1,
   (getattr_reports_host_owner "/a/b/f".data c3Base c9Stat
      (opGetattr "/a/b/f".data c3Base).state (by decide)).2,
   by decide, by decide⟩

theorem and_or_mask_high (a b : Nat) :
    ((a &&& 511) ||| (b &&& 61440)) &&& 61440 = b &&& 61440 := by
  apply Nat.eq_of_testBit_eq
  intro i
  have hd : (Nat.testBit 511 i && Nat.testBit 61440 i) = false := by
    rw [← Nat.testBit_land]
    have hz : 511 &&& 61440 = 0 := by decide
    rw [hz, Nat.zero_testBit]
  rw [Nat.testBit_land, Nat.testBit_lor, Nat.testBit_land, Nat.testBit_land]
  cases hp : Nat.testBit 511 i <;> cases hq : Nat.testBit 61440 i <;> simp_all

theorem and_or_mask_low (a b : Nat) :
    ((a &&& 511) ||| (b &&& 61440)) &&& 511 = a &&& 511 := by
  apply Nat.eq_of_testBit_eq
  intro i
  have hd : (Nat.testBit 511 i && Nat.testBit 61440 i) = false := by
    rw [← Nat.testBit_land]
    have hz : 511 &&& 61440 = 0 := by decide
    rw [hz, Nat.zero_testBit]
  rw [Nat.testBit_land, Nat.testBit_lor, Nat.testBit_land, Nat.testBit_land]
  cases hp : Nat.testBit 511 i <;> cases hq : Nat.testBit 61440 i <;> simp_all

/-- C10 amended: chmod(path, mode) stores (mode & 0777) | (original &
S_IFMT): the type bits keep their original value regardless of any type
bits in the argument and the permission bits come from the argument —
but nothing else of the original mode survives (in particular
setuid/setgid/sticky bits are cleared, which refutes the claim that only
the low permission bits change). -/
theorem chmod_mode_arithmetic (p : Str) (m : Nat) (s : FSState) (i : NodeId)
    (ino : Inode) (s2 : FSState)
    (h1 : openAll p s = .ok i s2) (h2 : afind i s2.inodes = some ino) :
    opChmod p m s =
      (0, setInode i { ino with mode := (m &&& 511) ||| (ino.mode &&& S_IFMT) } s2) ∧
    ((m &&& 511) ||| (ino.mode &&& S_IFMT)) &&& S_IFMT = ino.mode &&& S_IFMT ∧
    ((m &&& 511) ||| (ino.mode &&& S_IFMT)) &&& 511 = m &&& 511 := by
  refine ⟨?_, and_or_mask_high m ino.mode, and_or_mask_low m ino.mode⟩
  unfold opChmod
  rw [h1]
  simp only [Res.toInt_ok]
  rw [h2]

/-- Witness for C10 amended at the demo tree whose file has mode 0104755:
chmod stores (0644 & 0777) | (0104755 & S_IFMT). -/
theorem chmod_mode_arithmetic_witness :
    opChmod "/a/b/f".data 420 c10State =
      (0, setInode 3
            { fileIno 35309 false with
                mode := (420 &&& 511) ||| ((fileIno 35309 false).mode &&& S_IFMT) }
            (openAll "/a/b/f".data c10State).state) ∧
    ((420 &&& 511) ||| ((fileIno 35309 false).mode &&& S_IFMT)) &&& S_IFMT =
      (fileIno 35309 false).mode &&& S_IFMT ∧
    ((420 &&& 511) ||| ((fileIno 35309 false).mode &&& S_IFMT)) &&& 511 = 420 &&& 511 :=
  chmod_mode_arithmetic "/a/b/f".data 420 c10State 3 (fileIno 35309 false)
    (openAll "/a/b/f".data c10State).state (by decide) (by decide)

/- Evaluation lemmas: each reduces a primitive to its branch result once
the relevant lookup is known. -/

theorem openAs_eq_some {i : NodeId} {s : FSState} {ino : Inode}
    (h : afind i s.inodes = some ino) : openAs i s = .ok ino s := by
  unfold openAs
  rw [h]

theorem openAs_eq_none {i : NodeId} {s : FSState}
    (h : afind i s.inodes = none) : openAs i s = .err ENOENT s := by
  unfold openAs
  rw [h]

theorem unlinkInode_eq {i : NodeId} {s : FSState} {ino : Inode}
    (h : afind i s.inodes = some ino) :
    unlinkInode i s =
      if ino.unlinkFails then .err EIOerr s
      else if ino.nlink ≤ 1 then
        .ok () { s with inodes := s.inodes.filter fun e => e.1 != i }
      else .ok () (setInode i { ino with nlink := ino.nlink - 1 } s) := by
  unfold unlinkInode
  rw [h]

theorem addEntryR_eq {d : NodeId} {s : FSState} {dino : Inode} (name : Str)
    (i : NodeId) (t : FType) (h : afind d s.inodes = some dino) :
    addEntryR d name i t s =
      if dino.itype = FType.directory then
        if dino.addEntryFails then .err EIOerr s
        else if (getEntry dino name).isSome then .ok false s
        else .ok true (setInode d { dino with entries := dino.entries ++ [(name, i, t)] } s)
      else .err EPERM s := by
  unfold addEntryR
  rw [h]

theorem removeEntryS_eq {d : NodeId} {s : FSState} {dino : Inode} (name : Str)
    (h : afind d s.inodes = some dino) :
    removeEntryS d name s =
      setInode d { dino with entries := dino.entries.filter fun e => e.1 != name } s := by
  unfold removeEntryS
  rw [h]

theorem getEntryState_eq {d : NodeId} {s : FSState} {dino : Inode} (name : Str)
    (h : afind d s.inodes = some dino) :
    getEntryState s d name = getEntry dino name := by
  unfold getEntryState
  rw [h]

/-- Under the hypotheses that the walk, the entry lookup and the target
open all succeed and the non-empty-directory check passes,
internal::remove(fs, path) reduces to: remove the directory entry, then
unlink the inode. -/
theorem removePath_run (path : Str) (s : FSState) (d : NodeId) (last : Str)
    (s1 : FSState) (dino : Inode) (i : NodeId) (t : FType) (ino : Inode)
    (h1 : openBaseDir path s = .ok (d, last) s1)
    (h2 : afind d s1.inodes = some dino)
    (h3 : dino.itype = FType.directory)
    (h4 : last ≠ [])
    (h5 : getEntry dino last = some (i, t))
    (h6 : afind i s1.inodes = some ino)
    (h7 : ¬(ino.itype = FType.directory ∧ ino.entries ≠ [])) :
    removePath path s = unlinkInode i (removeEntryS d last s1) := by
  unfold removePath
  rw [h1]
  simp only [Res.bind_ok]
  rw [h2]
  simp only [h3, if_true, h4, h5, openAs_eq_some h6, if_neg h7, Res.bind_ok]
  simp [h4]

/-- C5 amended: in remove(path) the directory entry is removed before
the inode is unlinked — after the operation the entry is gone no matter
how the unlink fared — but an error from that final unlink is NOT
swallowed: unlink(path) returns the error (here EIO → -5), while it
returns 0 whenever the unlink succeeds. -/
theorem remove_entry_before_unlink (path : Str) (s : FSState) (d : NodeId)
    (last : Str) (s1 : FSState) (dino : Inode) (i : NodeId) (t : FType) (ino : Inode)
    (hro : s.readOnly = false)
    (h1 : openBaseDir path s = .ok (d, last) s1)
    (h2 : afind d s1.inodes = some dino)
    (h3 : dino.itype = FType.directory)
    (h4 : last ≠ [])
    (h5 : getEntry dino last = some (i, t))
    (h6 : afind i s1.inodes = some ino)
    (h7 : ¬(ino.itype = FType.directory ∧ ino.entries ≠ []))
    (h8 : i ≠ d) :
    getEntryState (opUnlink path s).2 d last = none ∧
    (ino.unlinkFails = true → (opUnlink path s).1 = -5) ∧
    (ino.unlinkFails = false → (opUnlink path s).1 = 0) := by
  have hd8 : d ≠ i := fun hx => h8 hx.symm
  have hiOf3 : afind i (removeEntryS d last s1).inodes = some ino := by
    rw [removeEntryS_eq last h2, afind_setInode_other i d _ s1 h8]
    exact h6
  have hdOf3 : afind d (removeEntryS d last s1).inodes =
      some { dino with entries := dino.entries.filter fun e => e.1 != last } := by
    rw [removeEntryS_eq last h2]
    exact afind_setInode_self d _ s1 (by rw [h2]; rfl)
  have hentry : getEntry { dino with entries := dino.entries.filter fun e => e.1 != last }
      last = none := afind_filter_self last dino.entries
  have hrun : opUnlink path s =
      Res.toInt (unlinkInode i (removeEntryS d last s1)) fun _ s2 => (0, s2) := by
    unfold opUnlink
    simp only [hro, Bool.false_eq_true, if_false]
    rw [removePath_run path s d last s1 dino i t ino h1 h2 h3 h4 h5 h6 h7]
  rw [hrun, unlinkInode_eq hiOf3]
  by_cases hu : ino.unlinkFails = true
  · rw [if_pos hu]
    simp only [Res.toInt_err]
    refine ⟨?_, fun _ => by norm_num [EIOerr], fun hf => absurd hu (by simp [hf])⟩
    rw [getEntryState_eq last hdOf3]
    exact hentry
  · have huf : ino.unlinkFails = false := by simpa using hu
    rw [if_neg hu]
    by_cases hn : ino.nlink ≤ 1
    · rw [if_pos hn]
      simp only [Res.toInt_ok]
      refine ⟨?_, fun htr => absurd htr (by simp [huf]), fun _ => by trivial⟩
      have hkeep : afind d ((removeEntryS d last s1).inodes.filter fun e => e.1 != i) =
          afind d (removeEntryS d last s1).inodes :=
        afind_filter_other d i _ hd8
      unfold getEntryState
      simp only [hkeep]
      rw [hdOf3]
      exact hentry
    · rw [if_neg hn]
      simp only [Res.toInt_ok]
      refine ⟨?_, fun htr => absurd htr (by simp [huf]), fun _ => by trivial⟩
      rw [getEntryState_eq last (by
        rw [afind_setInode_other d i _ _ hd8]
        exact hdOf3)]
      exact hentry

/-- Witness for C5 amended at the demo tree whose file /a/b/f has a
failing backing-store unlink: the operation returns -EIO yet the entry
for "f" is gone from directory 2. -/
theorem remove_entry_before_unlink_witness :
    getEntryState (opUnlink "/a/b/f".data c5State).2 2 "f".data = none ∧
    (opUnlink "/a/b/f".data c5State).1 = -5 :=
  have hall := remove_entry_before_unlink "/a/b/f".data c5State 2 "f".data
    (openBaseDir "/a/b/f".data c5State).state (dirIno [("f".data, 3, .regular)]) 3
    FType.regular (fileIno 33188 true) (by decide) (by decide) (by decide) (by decide)
    (by decide) (by decide) (by decide) (by decide) (by decide)
  ⟨hall.1, hall.2.1 (by decide)⟩

/-- Unlinking a freshly created inode (nlink 1, well-behaved backing
store) appended to a store that did not contain its id restores the
store exactly. -/
theorem unlink_fresh_state (t : FType) (mode uid gid : Nat) (newId : NodeId)
    (s1 : FSState) (h2 : afind newId s1.inodes = none) :
    (unlinkInode newId
        { s1 with inodes := s1.inodes ++ [(newId, initInode t mode uid gid)] }).state = s1 := by
  have hfresh : afind newId (s1.inodes ++ [(newId, initInode t mode uid gid)]) =
      some (initInode t mode uid gid) := by
    rw [afind_append, h2]
    simp [afind]
  rw [unlinkInode_eq
    (s := { s1 with inodes := s1.inodes ++ [(newId, initInode t mode uid gid)] }) hfresh]
  have hfl : (s1.inodes ++ [(newId, initInode t mode uid gid)]).filter
      (fun e => e.1 != newId) = s1.inodes := by
    rw [List.filter_append, filter_eq_self_of_afind_none newId _ h2]
    simp [initInode]
  simp only [show (initInode t mode uid gid).unlinkFails = false from rfl,
    Bool.false_eq_true, if_false,
    show (initInode t mode uid gid).nlink = 1 from rfl, Nat.le_refl, if_true, Res.state]
  rw [hfl]

/-- C6: when internal::create fails while adding the directory entry —
because add_entry throws (modelled by addEntryFails) or because the name
already exists (EEXIST) — the freshly created inode is unlinked before
the error is surfaced: the operation yields exactly the pre-creation
state again, so no orphan inode remains. -/
theorem create_no_orphan_on_failure (path : Str) (t : FType) (mode uid gid : Nat)
    (newId : NodeId) (s s1 : FSState) (d : NodeId) (last : Str) (dino : Inode)
    (h1 : openBaseDir path s = .ok (d, last) s1)
    (h2 : afind newId s1.inodes = none)
    (h3 : afind d s1.inodes = some dino)
    (h4 : dino.itype = FType.directory) :
    (dino.addEntryFails = true →
      createInternal path t mode uid gid newId s = .err EIOerr s1) ∧
    (dino.addEntryFails = false → (getEntry dino last).isSome = true →
      createInternal path t mode uid gid newId s = .err EEXIST s1) := by
  have hdla : afind d (s1.inodes ++ [(newId, initInode t mode uid gid)]) = some dino := by
    rw [afind_append, h3]
  have hdla2 : afind d
      ({ s1 with inodes := s1.inodes ++ [(newId, initInode t mode uid gid)] } :
        FSState).inodes = some dino := hdla
  have hadd := addEntryR_eq last newId t hdla2
  have hclean := unlink_fresh_state t mode uid gid newId s1 h2
  constructor
  · intro haf
    unfold createInternal
    rw [h1]
    simp only [Res.bind_ok, h2, Option.isSome_none, Bool.false_eq_true, if_false]
    rw [hadd]
    simp only [h4, if_true, haf]
    rw [hclean]
  · intro haf hcol
    unfold createInternal
    rw [h1]
    simp only [Res.bind_ok, h2, Option.isSome_none, Bool.false_eq_true, if_false]
    rw [hadd]
    simp only [h4, if_true, haf, Bool.false_eq_true, if_false, hcol]
    rw [hclean]

/-- Witness for C6: creating "/a" at the demo tree collides with the
existing entry "a" of the root directory; the fresh inode 9 is unlinked
and the state is exactly the post-walk state again (here the unchanged
mount, since the walk of "/a" memoizes nothing). -/
theorem create_no_orphan_on_failure_witness :
    createInternal "/a".data FType.regular 420 0 0 9 c3Base = .err EEXIST c3Base ∧
    afind 9 c3Base.inodes = none :=
  ⟨(create_no_orphan_on_failure "/a".data FType.regular 420 0 0 9 c3Base c3Base 0
      "a".data (dirIno [("a".data, 1, .directory)]) (by decide) (by decide) (by decide)
      (by decide)).2 (by decide) (by decide),
   by decide⟩

/- No error thrown by the embedded primitives carries errno 0; needed to
invert a successful FUSE return value. -/

theorem openAs_err_val {i : NodeId} {s : FSState} {e : Nat} {s2 : FSState}
    (h : openAs i s = .err e s2) : e = ENOENT := by
  unfold openAs at h
  split at h
  · cases h; rfl
  · exact Res.noConfusion h

theorem walkLoop_err_nonzero :
    ∀ (l : List (Str × Str)) (i : NodeId) (cur : Inode) (s : FSState) (e : Nat)
      (s2 : FSState), walkLoop l i cur s = .err e s2 → e ≠ 0 := by
  intro l
  induction l with
  | nil => intro i cur s e s2 h; exact Res.noConfusion h
  | cons hd tl ih =>
    intro i cur s e s2 h
    obtain ⟨c, p⟩ := hd
    cases tl with
    | nil => exact Res.noConfusion h
    | cons hd2 tl2 =>
      unfold walkLoop at h
      split at h
      · split at h
        · cases h; decide
        · split at h
          · split at h
            · rename_i e2 s3 heq
              cases h
              rw [openAs_err_val heq]
              decide
            · exact ih _ _ _ _ _ h
          · cases h; decide
      · cases h; decide

theorem openBaseDir_err_nonzero {p : Str} {s : FSState} {e : Nat} {s2 : FSState}
    (h : openBaseDir p s = .err e s2) : e ≠ 0 := by
  simp only [openBaseDir] at h
  split at h
  · split at h
    · rename_i e2 s3 heq
      cases h
      rw [openAs_err_val heq]
      decide
    · exact Res.noConfusion h
  · split at h
    · rename_i e2 s3 heq
      cases h
      rw [openAs_err_val heq]
      decide
    · exact walkLoop_err_nonzero _ _ _ _ _ _ h

theorem addEntryR_err_nonzero {d : NodeId} {name : Str} {i : NodeId} {t : FType}
    {s : FSState} {e : Nat} {s2 : FSState}
    (h : addEntryR d name i t s = .err e s2) : e ≠ 0 := by
  unfold addEntryR at h
  split at h
  · cases h; decide
  · split at h
    · split at h
      · cases h; decide
      · split at h
        · exact Res.noConfusion h
        · exact Res.noConfusion h
    · cases h; decide

theorem createInternal_err_nonzero {path : Str} {t : FType} {mode uid gid : Nat}
    {newId : NodeId} {s : FSState} {e : Nat} {s2 : FSState}
    (h : createInternal path t mode uid gid newId s = .err e s2) : e ≠ 0 := by
  unfold createInternal at h
  cases hob : openBaseDir path s with
  | err e0 s0 =>
    rw [hob] at h
    simp only [Res.bind_err] at h
    cases h
    exact openBaseDir_err_nonzero hob
  | ok dl s1 =>
    rw [hob] at h
    simp only [Res.bind_ok] at h
    split at h
    · cases h; decide
    · split at h
      · exact Res.noConfusion h
      · cases h; decide
      · rename_i e1 s3 heq
        cases h
        exact addEntryR_err_nonzero heq

/-- Inversion of a successful addEntryR returning true. -/
theorem addEntryR_ok_true {d : NodeId} {name : Str} {i : NodeId} {t : FType}
    {s s3 : FSState} (h : addEntryR d name i t s = .ok true s3) :
    ∃ dino, afind d s.inodes = some dino ∧ dino.itype = FType.directory ∧
      s3 = setInode d { dino with entries := dino.entries ++ [(name, i, t)] } s := by
  unfold addEntryR at h
  split at h
  · exact Res.noConfusion h
  · rename_i dino heq
    split at h
    · rename_i hdir
      split at h
      · exact Res.noConfusion h
      · split at h
        · simp at h
        · cases h
          exact ⟨dino, heq, hdir, rfl⟩
    · exact Res.noConfusion h

/-- Inversion of a successful internal::create for a non-directory type:
the returned id is the fresh one and its inode is the fresh inode. -/
theorem createInternal_ok {path : Str} {t : FType} {mode uid gid : Nat}
    {newId : NodeId} {s : FSState} {r : NodeId} {s2 : FSState}
    (ht : t ≠ FType.directory)
    (h : createInternal path t mode uid gid newId s = .ok r s2) :
    r = newId ∧ afind newId s2.inodes = some (initInode t mode uid gid) := by
  unfold createInternal at h
  cases hob : openBaseDir path s with
  | err e0 s0 =>
    rw [hob] at h
    simp only [Res.bind_err] at h
    exact Res.noConfusion h
  | ok dl s1 =>
    rw [hob] at h
    simp only [Res.bind_ok] at h
    split at h
    · exact Res.noConfusion h
    · rename_i hnotin
      split at h
      · rename_i s3 heqadd
        cases h
        obtain ⟨dino, hdla, hdir, hs3⟩ := addEntryR_ok_true heqadd
        have hfree : afind newId s1.inodes = none := by
          cases hx : afind newId s1.inodes
          · rfl
          · rw [hx] at hnotin
            simp at hnotin
        have hfresh : afind newId
            ({ s1 with inodes := s1.inodes ++ [(newId, initInode t mode uid gid)] } :
              FSState).inodes = some (initInode t mode uid gid) := by
          show afind newId (s1.inodes ++ [(newId, initInode t mode uid gid)]) = _
          rw [afind_append, hfree]
          simp [afind]
        by_cases hdn : dl.1 = newId
        · rw [hdn, hfresh] at hdla
          have hde : dino = initInode t mode uid gid := Option.some.inj hdla.symm
          rw [hde] at hdir
          exact absurd hdir ht
        · refine ⟨rfl, ?_⟩
          rw [hs3, afind_setInode_other newId dl.1 _ _ (fun hx => hdn hx.symm)]
          exact hfresh
      · exact Res.noConfusion h
      · exact Res.noConfusion h

/-- The mount used by the symlink round-trip witness: an empty root. -/
def c7State : FSState :=
  { inodes := [(0, dirIno [])], idCache := [], idReverse := [], rootId := 0,
    readOnly := false, hostUid := 0, hostGid := 0 }

/-- C7: after a successful symlink(target, name), readlink(name, buf,
size) fills the buffer with the target truncated to min(|target|,
size - 1) bytes followed by NUL padding up to `size`; in particular the
buffer spells out the target exactly (NUL-terminated) whenever
|target| ≤ size - 1. -/
theorem symlink_readlink_roundtrip (t name : Str) (uid gid : Nat) (nid : NodeId)
    (s s1 s2 : FSState) (size : Nat)
    (h0 : opSymlink t name uid gid nid s = (0, s1))
    (h2 : openAll name s1 = .ok nid s2)
    (hsz : 0 < size) :
    opReadlink name size s1 =
      .ok (t.take (min t.length (size - 1)) ++
           List.replicate (size - min t.length (size - 1)) (Char.ofNat 0)) s2 ∧
    (t.length + 1 ≤ size →
      opReadlink name size s1 =
        .ok (t ++ List.replicate (size - t.length) (Char.ofNat 0)) s2) := by
  unfold opSymlink at h0
  split at h0
  · have hx : -((EROFS : Nat) : Int) = 0 := congrArg Prod.fst h0
    exact absurd hx (by decide)
  · cases hc : createInternal name FType.symlink (S_IFLNK ||| 493) uid gid nid s with
    | err e sE =>
      rw [hc] at h0
      simp only [Res.toInt_err] at h0
      have he0 : -(e : Int) = 0 := congrArg Prod.fst h0
      have : e = 0 := by omega
      exact absurd this (createInternal_err_nonzero hc)
    | ok i sA =>
      rw [hc] at h0
      simp only [Res.toInt_ok] at h0
      obtain ⟨hrn, hfr⟩ := createInternal_ok (by decide) hc
      subst hrn
      rw [hfr] at h0
      simp only [show (initInode FType.symlink (S_IFLNK ||| 493) uid gid).itype =
        FType.symlink from rfl, if_true] at h0
      have hs1 : s1 = setInode i
          { initInode FType.symlink (S_IFLNK ||| 493) uid gid with target := t } sA :=
        (congrArg Prod.snd h0).symm
      have htarget : afind i s1.inodes =
          some { initInode FType.symlink (S_IFLNK ||| 493) uid gid with target := t } := by
        rw [hs1]
        exact afind_setInode_self i _ sA (by rw [hfr]; rfl)
      have hinos : s2.inodes = s1.inodes := by
        have hm := openAll_memoOnly name s1
        rw [h2] at hm
        exact hm.1
      have htarget2 : afind i s2.inodes =
          some { initInode FType.symlink (S_IFLNK ||| 493) uid gid with target := t } := by
        rw [hinos]
        exact htarget
      have hbase : opReadlink name size s1 =
          .ok (t.take (min t.length (size - 1)) ++
               List.replicate (size - min t.length (size - 1)) (Char.ofNat 0)) s2 := by
        unfold opReadlink
        rw [if_neg (Nat.pos_iff_ne_zero.mp hsz)]
        rw [h2]
        simp only [Res.bind_ok]
        rw [htarget2]
        rfl
      refine ⟨hbase, fun hlen => ?_⟩
      have hmin : min t.length (size - 1) = t.length := Nat.min_eq_left (by omega)
      rw [hbase, hmin, List.take_length]

/-- Witness for C7: symlink("x", "/l") on the empty mount, then
readlink("/l") with a 3-byte buffer yields "x" followed by two NULs. -/
theorem symlink_readlink_roundtrip_witness :
    opReadlink "/l".data 3 (opSymlink "x".data "/l".data 0 0 1 c7State).2 =
      .ok ("x".data ++ List.replicate 2 (Char.ofNat 0))
        (opSymlink "x".data "/l".data 0 0 1 c7State).2 :=
  (symlink_readlink_roundtrip "x".data "/l".data 0 0 1 c7State
      (opSymlink "x".data "/l".data 0 0 1 c7State).2
      (opSymlink "x".data "/l".data 0 0 1 c7State).2 3
      (by decide) (by decide) (by decide)).2 (by decide)

theorem clearCacheS_inodes (p : Str) (s : FSState) : (clearCacheS p s).inodes = s.inodes := by
  unfold clearCacheS
  split <;> rfl

theorem clearCacheIdS_inodes (i : NodeId) (s : FSState) :
    (clearCacheIdS i s).inodes = s.inodes := by
  unfold clearCacheIdS
  split
  · exact clearCacheS_inodes _ _
  · rfl

/-- Evaluation of internal::remove(fs, id, type) when the inode is
present and its backing unlink succeeds. -/
theorem removeById_eq {i : NodeId} {s : FSState} {ino : Inode}
    (h : afind i s.inodes = some ino) (hu : ino.unlinkFails = false) :
    removeById i s =
      if ino.nlink ≤ 1 then
        clearCacheIdS i { s with inodes := s.inodes.filter fun e => e.1 != i }
      else clearCacheIdS i (setInode i { ino with nlink := ino.nlink - 1 } s) := by
  unfold removeById
  rw [openAs_eq_some h]
  show (match unlinkInode i s with
        | Res.err _ s2 => s2
        | Res.ok _ s2 => clearCacheIdS i s2) = _
  rw [unlinkInode_eq h, hu]
  simp only [Bool.false_eq_true, if_false]
  by_cases hn : ino.nlink ≤ 1
  · rw [if_pos hn, if_pos hn]
  · rw [if_neg hn, if_neg hn]

theorem inodes_over (s : FSState) (l : List (NodeId × Inode)) :
    ({ s with inodes := l } : FSState).inodes = l := rfl

/-- The tail of the destination-exists rename path, over an abstract
post-removal state `s4`: add the entry (dn → si) to directory dd, unlink
the displaced inode di (errors swallowed), and invalidate the memo for
the source's last component. -/
theorem rename_step (dd : NodeId) (dn sn : Str) (si di : NodeId) (st : FType)
    (s4 : FSState) (dino4 dIno : Inode) (r : Int × FSState)
    (k1 : afind dd s4.inodes = some dino4)
    (k2 : dino4.itype = FType.directory)
    (k3 : dino4.addEntryFails = false)
    (k4 : getEntry dino4 dn = none)
    (kdi : afind di s4.inodes = some dIno)
    (kdif : dIno.unlinkFails = false)
    (kd2 : di ≠ dd)
    (hr : r = Res.toInt (addEntryR dd dn si st s4)
        fun _ s5 => (0, clearCacheS sn (removeById di s5))) :
    r.1 = 0 ∧
    afind dd r.2.inodes = some { dino4 with entries := dino4.entries ++ [(dn, si, st)] } ∧
    (∀ j : NodeId, j ≠ dd → j ≠ di → afind j r.2.inodes = afind j s4.inodes) ∧
    (dIno.nlink ≤ 1 → afind di r.2.inodes = none) ∧
    (1 < dIno.nlink → afind di r.2.inodes = some { dIno with nlink := dIno.nlink - 1 }) := by
  subst hr
  rw [addEntryR_eq dn si st k1, if_pos k2,
    if_neg (show ¬(dino4.addEntryFails = true) from by simp [k3]),
    if_neg (show ¬((getEntry dino4 dn).isSome = true) from by simp [k4])]
  simp only [Res.toInt_ok]
  have hdi5 : afind di (setInode dd
      { dino4 with entries := dino4.entries ++ [(dn, si, st)] } s4).inodes = some dIno := by
    rw [afind_setInode_other di dd _ _ kd2]
    exact kdi
  rw [removeById_eq hdi5 kdif]
  have hd2s : dd ≠ di := fun hx => kd2 hx.symm
  refine ⟨trivial, ?_, ?_, ?_, ?_⟩
  · show afind dd (clearCacheS sn _).inodes = _
    rw [clearCacheS_inodes, apply_ite FSState.inodes, clearCacheIdS_inodes,
      clearCacheIdS_inodes, inodes_over, apply_ite (afind dd),
      afind_filter_other dd di _ hd2s, afind_setInode_other dd di _ _ hd2s, ite_self]
    exact afind_setInode_self dd _ _ (by rw [k1]; rfl)
  · intro j hj1 hj2
    show afind j (clearCacheS sn _).inodes = _
    rw [clearCacheS_inodes, apply_ite FSState.inodes, clearCacheIdS_inodes,
      clearCacheIdS_inodes, inodes_over, apply_ite (afind j),
      afind_filter_other j di _ hj2, afind_setInode_other j di _ _ hj2, ite_self,
      afind_setInode_other j dd _ _ hj1]
  · intro hn
    show afind di (clearCacheS sn _).inodes = _
    rw [clearCacheS_inodes, if_pos hn, clearCacheIdS_inodes, inodes_over]
    exact afind_filter_self di _
  · intro hn
    show afind di (clearCacheS sn _).inodes = _
    rw [clearCacheS_inodes, if_neg (by omega), clearCacheIdS_inodes]
    exact afind_setInode_self di _ _ (by rw [hdi5]; rfl)

/-- C4: rename(src, dst) with an existing destination entry: identical
ids succeed without touching any directory (the inode store is exactly
the pre-rename one); a non-directory source onto a directory destination
fails with -EISDIR; otherwise differing types fail with -EINVAL; in all
remaining cases the destination entry is replaced by one holding the
source's id and type, the source entry is removed, and the displaced
destination inode is unlinked (its link count drops, and it leaves the
store when the count was 1). -/
theorem rename_existing_destination
    (src dst : Str) (s s1 s2 : FSState) (sd dd : NodeId) (sn dn : Str)
    (srcIno dstIno dIno : Inode) (si di : NodeId) (st dt : FType)
    (h1 : openBaseDir src s = .ok (sd, sn) s1)
    (h2 : openBaseDir dst s1 = .ok (dd, dn) s2)
    (h3 : afind sd s2.inodes = some srcIno)
    (h4 : afind dd s2.inodes = some dstIno)
    (h5 : srcIno.itype = FType.directory)
    (h6 : dstIno.itype = FType.directory)
    (h7 : getEntry srcIno sn = some (si, st))
    (h8 : getEntry dstIno dn = some (di, dt)) :
    (si = di → opRename src dst s = (0, s2) ∧ s2.inodes = s.inodes) ∧
    (si ≠ di → st ≠ FType.directory → dt = FType.directory →
       opRename src dst s = (-21, s2)) ∧
    (si ≠ di → ¬(st ≠ FType.directory ∧ dt = FType.directory) → st ≠ dt →
       opRename src dst s = (-22, s2)) ∧
    (si ≠ di → st = dt → dstIno.addEntryFails = false →
     afind di s2.inodes = some dIno → dIno.unlinkFails = false →
     di ≠ sd → di ≠ dd →
       (opRename src dst s).1 = 0 ∧
       getEntryState (opRename src dst s).2 dd dn = some (si, st) ∧
       getEntryState (opRename src dst s).2 sd sn = none ∧
       (dIno.nlink ≤ 1 → afind di (opRename src dst s).2.inodes = none) ∧
       (1 < dIno.nlink → afind di (opRename src dst s).2.inodes =
          some { dIno with nlink := dIno.nlink - 1 })) := by
  have hmain : opRename src dst s =
      (if si = di then (0, s2)
       else if st ≠ FType.directory ∧ dt = FType.directory then (-(EISDIR : Int), s2)
       else if st ≠ dt then (-(EINVAL : Int), s2)
       else Res.toInt (addEntryR dd dn si st (removeEntryS sd sn (removeEntryS dd dn s2)))
         fun _ s5 => (0, clearCacheS sn (removeById di s5))) := by
    unfold opRename
    rw [h1]
    simp only [Res.toInt_ok]
    rw [h2]
    simp only [Res.toInt_ok, h3, h4, h5, h6, eq_self_iff_true, if_true, h7, h8]
  refine ⟨?_, ?_, ?_, ?_⟩
  · intro hsi
    rw [hmain, if_pos hsi]
    refine ⟨rfl, ?_⟩
    have m1 := openBaseDir_memoOnly src s
    rw [h1] at m1
    have m2 := openBaseDir_memoOnly dst s1
    rw [h2] at m2
    exact m2.1.trans m1.1
  · intro hne hst hdt
    rw [hmain, if_neg hne, if_pos (And.intro hst hdt)]
    norm_num [EISDIR]
  · intro hne hno hst
    rw [hmain, if_neg hne, if_neg hno, if_pos hst]
    norm_num [EINVAL]
  · intro hne ht haf hdi hdif hd1 hd2
    have hstd : ¬(st ≠ FType.directory ∧ dt = FType.directory) := by
      rintro ⟨hx, hy⟩
      exact hx (ht.trans hy)
    have hstd2 : ¬(st ≠ dt) := fun hx => hx ht
    rw [hmain, if_neg hne, if_neg hstd, if_neg hstd2]
    by_cases hsdd : sd = dd
    · rw [hsdd] at h3
      have hsame : srcIno = dstIno := Option.some.inj (h3.symm.trans h4)
      have hsn2 : sn ≠ dn := by
        intro hx
        rw [hsame, hx, h8] at h7
        exact hne ((congrArg Prod.fst (Option.some.inj h7)).symm)
      rw [hsdd]
      have hc1 : afind dd (removeEntryS dd dn s2).inodes =
          some { dstIno with entries := dstIno.entries.filter fun e => e.1 != dn } := by
        rw [removeEntryS_eq dn h4]
        exact afind_setInode_self dd _ s2 (by rw [h4]; rfl)
      have hc2 : afind dd (removeEntryS dd sn (removeEntryS dd dn s2)).inodes =
          some { dstIno with
            entries := (dstIno.entries.filter fun e => e.1 != dn).filter
              fun e => e.1 != sn } := by
        rw [removeEntryS_eq sn hc1]
        exact afind_setInode_self dd _ _ (by rw [hc1]; rfl)
      have hcol : afind dn ((dstIno.entries.filter fun e => e.1 != dn).filter
          fun e => e.1 != sn) = none := by
        rw [afind_filter_other dn sn _ (fun hx => hsn2 hx.symm)]
        exact afind_filter_self dn dstIno.entries
      have hdi4 : afind di (removeEntryS dd sn (removeEntryS dd dn s2)).inodes =
          some dIno := by
        rw [removeEntryS_eq sn hc1, removeEntryS_eq dn h4,
          afind_setInode_other di dd _ _ hd2, afind_setInode_other di dd _ _ hd2]
        exact hdi
      obtain ⟨hA, hB, hC, hD, hE⟩ := rename_step dd dn sn si di st
        (removeEntryS dd sn (removeEntryS dd dn s2))
        { dstIno with
          entries := (dstIno.entries.filter fun e => e.1 != dn).filter fun e => e.1 != sn }
        dIno _ hc2 h6 haf hcol hdi4 hdif hd2 rfl
      refine ⟨hA, ?_, ?_, hD, hE⟩
      · rw [getEntryState_eq dn hB]
        show afind dn (((dstIno.entries.filter fun e => e.1 != dn).filter
          fun e => e.1 != sn) ++ [(dn, si, st)]) = some (si, st)
        rw [afind_append, hcol]
        simp [afind]
      · rw [getEntryState_eq sn hB]
        show afind sn (((dstIno.entries.filter fun e => e.1 != dn).filter
          fun e => e.1 != sn) ++ [(dn, si, st)]) = none
        rw [afind_append, afind_filter_self sn _]
        simp [afind, hsn2]
    · have hc1 : afind dd (removeEntryS dd dn s2).inodes =
          some { dstIno with entries := dstIno.entries.filter fun e => e.1 != dn } := by
        rw [removeEntryS_eq dn h4]
        exact afind_setInode_self dd _ s2 (by rw [h4]; rfl)
      have hsrc1 : afind sd (removeEntryS dd dn s2).inodes = some srcIno := by
        rw [removeEntryS_eq dn h4, afind_setInode_other sd dd _ _ hsdd]
        exact h3
      have hc2 : afind dd (removeEntryS sd sn (removeEntryS dd dn s2)).inodes =
          some { dstIno with entries := dstIno.entries.filter fun e => e.1 != dn } := by
        rw [removeEntryS_eq sn hsrc1, afind_setInode_other dd sd _ _ (fun hx => hsdd hx.symm)]
        exact hc1
      have hcol : afind dn (dstIno.entries.filter fun e => e.1 != dn) = none :=
        afind_filter_self dn dstIno.entries
      have hdi4 : afind di (removeEntryS sd sn (removeEntryS dd dn s2)).inodes =
          some dIno := by
        rw [removeEntryS_eq sn hsrc1, removeEntryS_eq dn h4,
          afind_setInode_other di sd _ _ hd1, afind_setInode_other di dd _ _ hd2]
        exact hdi
      have hs4src : afind sd (removeEntryS sd sn (removeEntryS dd dn s2)).inodes =
          some { srcIno with entries := srcIno.entries.filter fun e => e.1 != sn } := by
        rw [removeEntryS_eq sn hsrc1]
        exact afind_setInode_self sd _ _ (by rw [hsrc1]; rfl)
      obtain ⟨hA, hB, hC, hD, hE⟩ := rename_step dd dn sn si di st
        (removeEntryS sd sn (removeEntryS dd dn s2))
        { dstIno with entries := dstIno.entries.filter fun e => e.1 != dn }
        dIno _ hc2 h6 haf hcol hdi4 hdif hd2 rfl
      refine ⟨hA, ?_, ?_, hD, hE⟩
      · rw [getEntryState_eq dn hB]
        show afind dn ((dstIno.entries.filter fun e => e.1 != dn) ++ [(dn, si, st)]) =
          some (si, st)
        rw [afind_append, hcol]
        simp [afind]
      · have hfin : afind sd ((Res.toInt (addEntryR dd dn si st
            (removeEntryS sd sn (removeEntryS dd dn s2)))
            fun x s5 => (0, clearCacheS sn (removeById di s5))) : Int × FSState).2.inodes =
            some { srcIno with entries := srcIno.entries.filter fun e => e.1 != sn } := by
          rw [hC sd hsdd (fun hx => hd1 hx.symm)]
          exact hs4src
        rw [getEntryState_eq sn hfin]
        exact afind_filter_self sn srcIno.entries

/-- A flat mount for the rename witness: root 0 holds a regular file "f"
(id 1) and a directory "d" (id 2). -/
def c4State : FSState :=
  { inodes := [(0, dirIno [("f".data, 1, .regular), ("d".data, 2, .directory)]),
               (1, fileIno 33188 false), (2, dirIno [])],
    idCache := [], idReverse := [], rootId := 0, readOnly := false,
    hostUid := 0, hostGid := 0 }

/-- Witness for C4: renaming the regular file "/f" onto the existing
directory "/d" fails with -EISDIR and leaves the state unchanged. -/
theorem rename_existing_destination_witness :
    opRename "/f".data "/d".data c4State = (-21, c4State) :=
  (rename_existing_destination "/f".data "/d".data c4State c4State c4State 0 0
      "f".data "d".data
      (dirIno [("f".data, 1, .regular), ("d".data, 2, .directory)])
      (dirIno [("f".data, 1, .regular), ("d".data, 2, .directory)])
      (fileIno 33188 false) 1 2 FType.regular FType.directory
      (by decide) (by decide) (by decide) (by decide) (by decide) (by decide)
      (by decide) (by decide)).2.1 (by decide) (by decide) (by decide)

/- Order theory for the std::map key comparison: keys sharing a prefix
form a contiguous run of the sorted key sequence, which is what the
erase loop of clear_cache exploits. -/

theorem charLt_toNat (a b : Char) : charLt a b = true ↔ a.toNat < b.toNat := by
  simp [charLt]

theorem char_eq_of_not_lt {a b : Char} (h1 : charLt a b = false)
    (h2 : charLt b a = false) : a = b := by
  have n1 : ¬ a.toNat < b.toNat := by simpa [charLt] using h1
  have n2 : ¬ b.toNat < a.toNat := by simpa [charLt] using h2
  have n3 : a.toNat = b.toNat := by omega
  exact Char.eq_of_val_eq (UInt32.ext n3)

theorem charLt_asymm {a b : Char} (h : charLt a b = true) : charLt b a = false := by
  have n1 : a.toNat < b.toNat := (charLt_toNat a b).mp h
  have n2 : ¬ b.toNat < a.toNat := by omega
  simpa [charLt] using n2

theorem charLt_irrefl (a : Char) : charLt a a = false := by
  simp [charLt]

theorem prefixOf_refl : ∀ (p : Str), prefixOf p p = true := by
  intro p
  induction p with
  | nil => rfl
  | cons x xs ih => simp [prefixOf, ih]

theorem strLt_asymm : ∀ {a b : Str}, strLt a b = true → strLt b a = false := by
  intro a
  induction a with
  | nil =>
    intro b h
    cases b with
    | nil => simp [strLt] at h
    | cons y ys => simp [strLt]
  | cons x xs ih =>
    intro b h
    cases b with
    | nil => simp [strLt] at h
    | cons y ys =>
      unfold strLt at h ⊢
      cases hxy : charLt x y with
      | true =>
        have hyx : charLt y x = false := charLt_asymm hxy
        simp [hyx, hxy]
      | false =>
        cases hyx : charLt y x with
        | true => simp [hxy, hyx] at h
        | false =>
          rw [hxy, hyx] at h
          simp only [Bool.false_eq_true, if_false] at h
          simp only [hxy, hyx, Bool.false_eq_true, if_false]
          exact ih h

theorem prefix_strLt : ∀ {p k : Str}, prefixOf p k = true → k ≠ p → strLt p k = true := by
  intro p
  induction p with
  | nil =>
    intro k hp hne
    cases k with
    | nil => exact absurd rfl hne
    | cons c kc => simp [strLt]
  | cons x p2 ih =>
    intro k hp hne
    cases k with
    | nil => simp [prefixOf] at hp
    | cons y k2 =>
      simp only [prefixOf, Bool.and_eq_true, beq_iff_eq] at hp
      obtain ⟨hxy, hp2⟩ := hp
      subst hxy
      have hne2 : k2 ≠ p2 := by
        intro hx
        exact hne (by rw [hx])
      unfold strLt
      rw [charLt_irrefl]
      simp only [Bool.false_eq_true, if_false]
      exact ih hp2 hne2

theorem prefix_between : ∀ {p b c : Str}, prefixOf p c = true → strLt p b = true →
    strLt b c = true → prefixOf p b = true := by
  intro p
  induction p with
  | nil => intro b c _ _ _; rfl
  | cons x p2 ih =>
    intro b c hpc hpb hbc
    cases c with
    | nil => simp [prefixOf] at hpc
    | cons z c2 =>
      simp only [prefixOf, Bool.and_eq_true, beq_iff_eq] at hpc
      obtain ⟨hxz, hpc2⟩ := hpc
      subst hxz
      cases b with
      | nil => simp [strLt] at hpb
      | cons y b2 =>
        unfold strLt at hpb hbc
        cases hxy : charLt x y with
        | true =>
          have hyx : charLt y x = false := charLt_asymm hxy
          rw [hyx, hxy] at hbc
          simp at hbc
        | false =>
          cases hyx : charLt y x with
          | true =>
            rw [hxy, hyx] at hpb
            simp at hpb
          | false =>
            have hxyeq : x = y := char_eq_of_not_lt hxy hyx
            subst hxyeq
            rw [charLt_irrefl] at hpb hbc
            simp only [Bool.false_eq_true, if_false] at hpb hbc
            simp only [prefixOf, Bool.and_eq_true, beq_iff_eq]
            exact ⟨trivial, ih hpc2 hpb hbc⟩

/-- In a strictly sorted run whose elements all lie at or after `p`,
once an element stops having `p` as a prefix every later one does too:
dropWhile/takeWhile against the prefix test coincide with filter. -/
theorem sorted_run (p : Str) :
    ∀ (l : List (Str × NodeId)),
      List.Pairwise (fun a b => strLt a.1 b.1 = true) l →
      (∀ e ∈ l, p = e.1 ∨ strLt p e.1 = true) →
      l.dropWhile (fun e => prefixOf p e.1) = l.filter (fun e => !(prefixOf p e.1)) ∧
      l.takeWhile (fun e => prefixOf p e.1) = l.filter (fun e => prefixOf p e.1) := by
  intro l
  induction l with
  | nil => simp
  | cons hd tl ih =>
    intro hpw hall
    obtain ⟨k, v⟩ := hd
    rw [List.pairwise_cons] at hpw
    obtain ⟨hhead, htlpw⟩ := hpw
    have halltl : ∀ e ∈ tl, p = e.1 ∨ strLt p e.1 = true := fun e he =>
      hall e (List.mem_cons_of_mem _ he)
    cases hpk : prefixOf p k with
    | true =>
      obtain ⟨ihd, iht⟩ := ih htlpw halltl
      rw [List.dropWhile_cons_of_pos (by simpa using hpk),
        List.takeWhile_cons_of_pos (by simpa using hpk)]
      rw [List.filter_cons, List.filter_cons]
      simp only [hpk, Bool.not_true, Bool.false_eq_true, if_false, if_true, if_pos]
      exact ⟨ihd, by rw [iht]⟩
    | false =>
      have hresttl : ∀ e ∈ tl, prefixOf p e.1 = false := by
        intro e he
        cases hpe : prefixOf p e.1 with
        | false => rfl
        | true =>
          exfalso
          have hplt : strLt p k = true := by
            rcases hall (k, v) (List.mem_cons_self _ _) with hx | hx
            · have hx2 : p = k := hx
              rw [← hx2, prefixOf_refl] at hpk
              exact Bool.noConfusion hpk
            · exact hx
          have hke : strLt k e.1 = true := hhead e he
          have := prefix_between hpe hplt hke
          rw [this] at hpk
          exact Bool.noConfusion hpk
      rw [List.dropWhile_cons_of_neg (by simp [hpk]),
        List.takeWhile_cons_of_neg (by simp [hpk])]
      rw [List.filter_cons, List.filter_cons]
      simp only [hpk, Bool.not_false, if_true, Bool.false_eq_true, if_false]
      constructor
      · rw [List.filter_eq_self.mpr]
        intro e he
        simp [hresttl e he]
      · rw [List.filter_eq_nil_iff.mpr]
        intro e he
        simp [hresttl e he]

/-- The erase loop characterized: it drops the leading prefix-matching
run from the cache tail and erases exactly those run entries' ids from
the reverse map. -/
theorem eraseRun_spec (p : Str) :
    ∀ (l : List (Str × NodeId)) (rev : List (NodeId × Str)),
      eraseRun p l rev =
        (l.dropWhile (fun e => prefixOf p e.1),
         rev.filter (fun e =>
           !(((l.takeWhile fun e2 => prefixOf p e2.1).map fun e2 => e2.2).contains e.1))) := by
  intro l
  induction l with
  | nil =>
    intro rev
    simp [eraseRun]
  | cons hd tl ih =>
    intro rev
    obtain ⟨k, v⟩ := hd
    cases hpk : prefixOf p k with
    | true =>
      rw [show eraseRun p ((k, v) :: tl) rev = eraseRun p tl (eraseId v rev) from by
        rw [eraseRun, if_pos hpk]]
      rw [ih (eraseId v rev)]
      rw [List.dropWhile_cons_of_pos (by simpa using hpk),
        List.takeWhile_cons_of_pos (by simpa using hpk)]
      refine congrArg _ ?_
      unfold eraseId
      rw [List.filter_filter]
      apply List.filter_congr
      intro e he
      simp only [List.map_cons, List.contains_cons, Bool.not_or]
      rw [Bool.and_comm]
      simp [bne]
    | false =>
      rw [show eraseRun p ((k, v) :: tl) rev = ((k, v) :: tl, rev) from by
        rw [eraseRun, if_neg (by simp [hpk])]]
      rw [List.dropWhile_cons_of_neg (by simp [hpk]),
        List.takeWhile_cons_of_neg (by simp [hpk])]
      refine congrArg _ ?_
      rw [show (rev.filter fun e =>
          !((List.map (fun e2 => e2.2) ([] : List (Str × NodeId))).contains e.1)) =
          rev.filter fun _ => true from List.filter_congr (by intro e he; simp)]
      simp

/-- When some key equals `p`, dropping the keys different from `p`
reaches the entry for `p` itself. -/
theorem any_dropWhile_eq (p : Str) :
    ∀ (l : List (Str × NodeId)), l.any (fun e => e.1 == p) = true →
      ∃ v tail, l.dropWhile (fun e => e.1 != p) = (p, v) :: tail := by
  intro l
  induction l with
  | nil => simp
  | cons hd tl ih =>
    intro h
    obtain ⟨k, v⟩ := hd
    by_cases hk : k = p
    · subst hk
      refine ⟨v, tl, ?_⟩
      rw [List.dropWhile_cons_of_neg (by simp)]
    · have hany2 : tl.any (fun e => e.1 == p) = true := by
        simpa [hk] using h
      obtain ⟨v2, tail, htl⟩ := ih hany2
      refine ⟨v2, tail, ?_⟩
      rw [List.dropWhile_cons_of_pos (by simpa using hk)]
      exact htl

/-- The list-level content of clear_cache(path) when `path` occurs as a
key of the (sorted) cache: the surviving cache is the filter removing
every key with prefix `path`, and the surviving reverse map drops
exactly the ids of the removed entries. -/
theorem clear_core (p : Str) (L : List (Str × NodeId)) (rev : List (NodeId × Str))
    (hs : List.Pairwise (fun a b => strLt a.1 b.1 = true) L)
    (hany : L.any (fun e => e.1 == p) = true) :
    (L.takeWhile fun e => e.1 != p) ++
        (eraseRun p (L.dropWhile fun e => e.1 != p) rev).1 =
      L.filter (fun e => !(prefixOf p e.1)) ∧
    (eraseRun p (L.dropWhile fun e => e.1 != p) rev).2 =
      rev.filter (fun e =>
        !(((L.filter fun c => prefixOf p c.1).map fun c => c.2).contains e.1)) := by
  obtain ⟨v, tail, hdrop⟩ := any_dropWhile_eq p L hany
  have happ : (L.takeWhile fun e => e.1 != p) ++ (p, v) :: tail = L := by
    rw [← hdrop]
    exact List.takeWhile_append_dropWhile (p := fun e => e.1 != p) (l := L)
  have hs2 : List.Pairwise (fun a b => strLt a.1 b.1 = true)
      ((L.takeWhile fun e => e.1 != p) ++ (p, v) :: tail) := by
    rw [happ]
    exact hs
  rw [List.pairwise_append] at hs2
  obtain ⟨hpre, hsuf, hcross⟩ := hs2
  have hsufall : ∀ e ∈ (p, v) :: tail, p = e.1 ∨ strLt p e.1 = true := by
    intro e he
    rcases List.mem_cons.mp he with he1 | he2
    · left
      rw [he1]
    · right
      rw [List.pairwise_cons] at hsuf
      exact hsuf.1 e he2
  obtain ⟨hdw, htw⟩ := sorted_run p ((p, v) :: tail) hsuf hsufall
  have hprefalse : ∀ e ∈ (L.takeWhile fun e => e.1 != p), prefixOf p e.1 = false := by
    intro e he
    cases hpe : prefixOf p e.1 with
    | false => rfl
    | true =>
      exfalso
      have hlt : strLt e.1 p = true := by
        have := hcross e he (p, v) (List.mem_cons_self _ _)
        exact this
      have hne : e.1 ≠ p := by
        have := List.mem_takeWhile_imp he
        simpa using this
      have hplt : strLt p e.1 = true := prefix_strLt hpe hne
      have := strLt_asymm hplt
      rw [hlt] at this
      exact Bool.noConfusion this
  have hfeq : (L.filter fun c => prefixOf p c.1) =
      ((p, v) :: tail).takeWhile fun e2 => prefixOf p e2.1 := by
    conv_lhs => rw [← happ]
    rw [List.filter_append, htw, List.filter_eq_nil_iff.mpr]
    · rfl
    · intro e2 he2
      simp [hprefalse e2 he2]
  constructor
  · rw [hdrop, eraseRun_spec p ((p, v) :: tail) rev, hdw]
    show List.takeWhile (fun e => e.1 != p) L ++
        List.filter (fun e => !(prefixOf p e.1)) ((p, v) :: tail) =
      List.filter (fun e => !(prefixOf p e.1)) L
    have hpreeq : List.filter (fun e => !(prefixOf p e.1))
        (List.takeWhile (fun e => e.1 != p) L) =
        List.takeWhile (fun e => e.1 != p) L :=
      List.filter_eq_self.mpr (fun e he => by simp [hprefalse e he])
    conv_rhs => rw [← happ]
    rw [List.filter_append, hpreeq]
  · rw [hdrop, eraseRun_spec p ((p, v) :: tail) rev]
    show List.filter (fun e =>
        !(((List.takeWhile (fun e2 => prefixOf p e2.1) ((p, v) :: tail)).map
          fun e2 => e2.2).contains e.1)) rev = _
    refine List.filter_congr ?_
    intro e he
    rw [hfeq]

/-- C2 amended: when `p` itself is a key of the (sorted) id_cache,
clear_cache(p) removes exactly the entries whose key has `p` as a string
prefix and erases the id_reverse entry of every removed mapping; when
`p` is not a key, clear_cache(p) changes nothing — cached descendants of
an uncached `p` survive. -/
theorem clear_cache_exact_eviction (s : FSState) (p : Str)
    (hs : List.Pairwise (fun a b => strLt a.1 b.1 = true) s.idCache) :
    (s.idCache.any (fun e => e.1 == p) = true →
      (clearCacheS p s).idCache = s.idCache.filter (fun e => !(prefixOf p e.1)) ∧
      (clearCacheS p s).idReverse = s.idReverse.filter (fun e =>
        !(((s.idCache.filter fun c => prefixOf p c.1).map fun c => c.2).contains e.1))) ∧
    (s.idCache.any (fun e => e.1 == p) = false → clearCacheS p s = s) := by
  constructor
  · intro hany
    obtain ⟨hcache, hrev⟩ := clear_core p s.idCache s.idReverse hs hany
    unfold clearCacheS
    rw [if_pos hany]
    exact ⟨hcache, hrev⟩
  · intro hany
    unfold clearCacheS
    rw [if_neg (by simp [hany])]

/-- A sorted four-entry cache for the clear_cache witness: note "/ab"
has the string prefix "/a" though it is not a path descendant. -/
def c2wState : FSState :=
  { inodes := [],
    idCache := [("/a".data, 1), ("/a/b".data, 2), ("/ab".data, 3), ("/b".data, 4)],
    idReverse := [(1, "/a".data), (2, "/a/b".data), (3, "/ab".data), (4, "/b".data)],
    rootId := 0, readOnly := false, hostUid := 0, hostGid := 0 }

/-- Witness for C2 amended: clearing "/a" (which is a key) removes
"/a", "/a/b" and "/ab" with their reverse entries and keeps "/b". -/
theorem clear_cache_exact_eviction_witness :
    (clearCacheS "/a".data c2wState).idCache =
      c2wState.idCache.filter (fun e => !(prefixOf "/a".data e.1)) ∧
    (clearCacheS "/a".data c2wState).idReverse =
      c2wState.idReverse.filter (fun e =>
        !(((c2wState.idCache.filter fun c => prefixOf "/a".data c.1).map
          fun c => c.2).contains e.1)) :=
  (clear_cache_exact_eviction c2wState "/a".data (by decide)).1 (by decide)
